import Mathlib

/-!
A verification development for the `mdbx_load` bulk-load tool of the
libmdbx storage engine (source: `src/mdbx-sys/libmdbx/mdbx_load.c`).

The tool reads a text dump from stdin (a sequence of header sections and
data sections) and loads the records into an MDBX environment.  We give a
shallow embedding of the tool's input parsing (`unhex`, `readline`,
`readhdr`) and of the record-loading loop of `main`, together with a
spec-modelled abstract view of the storage-engine API that the tool calls
(environment / transaction / table / cursor operations).

Modelling conventions:
 * bytes are `Nat` in 0..255; an input is a list of lines, each line the
   list of its bytes without the trailing newline (the C code reads lines
   with `fgets`; the embedding assumes every line is newline-terminated
   and contains no NUL byte, which is the domain the dump format uses);
 * C machine integers are modelled as `Nat`/`Int`, with explicit
   wrap-around where the C code can overflow;
 * each interaction of the tool with the storage engine is recorded in a
   trace of `EOp` operations.
-/

namespace MdbxLoad

/-- One input line, without its trailing newline; bytes are `Nat` (0..255). -/
abbrev Line := List Nat

/-- The bytes of an ASCII string literal, for writing concrete inputs. -/
def bytes (s : String) : Line := s.toList.map Char.toNat

/-- C-locale `isxdigit`: ASCII `0`-`9`, `A`-`F`, `a`-`f`. -/
def isxdigit (c : Nat) : Bool :=
  (decide (48 ≤ c) && decide (c ≤ 57)) ||
  (decide (65 ≤ c) && decide (c ≤ 70)) ||
  (decide (97 ≤ c) && decide (c ≤ 102))

/-- C-locale `isspace`: space, `\t`, `\n`, `\v`, `\f`, `\r`. -/
def isspace (c : Nat) : Bool :=
  decide (c = 32) || (decide (9 ≤ c) && decide (c ≤ 13))

/-- Shallow embedding of `unhex` (mdbx_load.c:3194-3205).  The C source:
    `x = *c2++ & 0x4f; if (x & 0x40) x -= 55; c = x << 4;` and then the
    same for the second byte, or-ed into the low nibble.  Both
    subtractions stay non-negative because `x & 0x40` forces `x ≥ 64`. -/
def unhex (a b : Nat) : Nat :=
  let x1 := a &&& 0x4f
  let x1 := if x1 &&& 0x40 ≠ 0 then x1 - 55 else x1
  let x2 := b &&& 0x4f
  let x2 := if x2 &&& 0x40 ≠ 0 then x2 - 55 else x2
  (x1 <<< 4) ||| x2

/-- The numeric value of an ASCII hex digit (specification-side reading
    of the claims; `unhex` is the code-side function). -/
def hexVal (c : Nat) : Nat :=
  if 48 ≤ c ∧ c ≤ 57 then c - 48
  else if 65 ≤ c ∧ c ≤ 70 then c - 55
  else if 97 ≤ c ∧ c ≤ 102 then c - 87
  else 0

/-- Lower-case letter hex digits mapped to upper case; other bytes kept. -/
def upcaseHex (c : Nat) : Nat :=
  if 97 ≤ c ∧ c ≤ 102 then c - 32 else c

/-- The 22 bytes accepted by `isxdigit`. -/
def hexDigitBytes : List Nat :=
  [48, 49, 50, 51, 52, 53, 54, 55, 56, 57,
   65, 66, 67, 68, 69, 70,
   97, 98, 99, 100, 101, 102]

theorem isxdigit_mem_hexDigitBytes : ∀ c, isxdigit c = true → c ∈ hexDigitBytes := by
  intro c hc
  have hlt : c < 103 := by
    unfold isxdigit at hc
    simp only [Bool.or_eq_true, Bool.and_eq_true, decide_eq_true_eq] at hc
    rcases hc with (⟨h1, h2⟩ | ⟨h1, h2⟩) | ⟨h1, h2⟩ <;> omega
  revert hc
  revert hlt
  revert c
  decide

theorem unhex_on_hexDigitBytes :
    hexDigitBytes.all (fun a => hexDigitBytes.all (fun b =>
      decide (unhex a b = 16 * hexVal a + hexVal b) &&
      decide (unhex (upcaseHex a) (upcaseHex b) = unhex a b))) = true := by
  decide

/-- C9: for every input of two bytes that are both ASCII hexadecimal digits,
    `unhex` returns the value of the two-digit hexadecimal number they denote
    (first byte is the high nibble), and uppercase and lowercase letter digits
    yield the same result. -/
theorem unhex_decodes_hex_pair (a b : Nat)
    (ha : isxdigit a = true) (hb : isxdigit b = true) :
    unhex a b = 16 * hexVal a + hexVal b ∧
    unhex (upcaseHex a) (upcaseHex b) = unhex a b := by
  have hma := isxdigit_mem_hexDigitBytes a ha
  have hmb := isxdigit_mem_hexDigitBytes b hb
  have h := unhex_on_hexDigitBytes
  rw [List.all_eq_true] at h
  have h1 := h a hma
  rw [List.all_eq_true] at h1
  have h2 := h1 b hmb
  simp only [Bool.and_eq_true, decide_eq_true_eq] at h2
  exact h2

/-- Witness for C9 at the concrete pair `'a'`/`'F'` (bytes 97 and 70):
    `unhex` yields 0xAF = 175. -/
theorem unhex_decodes_hex_pair_witness :
    unhex 97 70 = 16 * hexVal 97 + hexVal 70 ∧
    unhex (upcaseHex 97) (upcaseHex 70) = unhex 97 70 :=
  unhex_decodes_hex_pair 97 70 (by decide) (by decide)

/-! ## The `readline` function -/

/-- Mode bit: the dump is in `print` (escaped-text) format (mdbx_load.c:3020). -/
def PRINT : Nat := 1

/-- Mode bit: plaintext input without per-section headers (mdbx_load.c:3021). -/
def NOHDR : Nat := 2

/-- strncmp-style test: is `p` a leading segment of `l`? -/
def hasPfx : Line → Line → Bool
  | [], _ => true
  | _ :: _, [] => false
  | a :: p, b :: l => (a == b) && hasPfx p l

/-- The pairwise hex scan of `readline`'s bytevalue branch
    (mdbx_load.c:3292-3300): every pair of payload bytes must be hex digits
    and is decoded with `unhex`. -/
def parseBytevalGo : Line → Option Line
  | [] => some []
  | a :: b :: rest =>
      if isxdigit a && isxdigit b then
        (parseBytevalGo rest).map (fun l => unhex a b :: l)
      else none
  | [_] => none

/-- The bytevalue branch of `readline` (mdbx_load.c:3285-3301): an odd-length
    payload (`len & 1`) is rejected before the hex scan. -/
def parseByteval (l : Line) : Option Line :=
  if l.length % 2 = 1 then none else parseBytevalGo l

/-- The print-format branch of `readline` (mdbx_load.c:3266-3284): `\\`
    escapes a backslash, `\xy` with two hex digits escapes a byte, a
    truncated or malformed escape is an error, anything else is copied. -/
def parsePrint : Line → Option Line
  | [] => some []
  | 92 :: 92 :: rest => (parsePrint rest).map (fun l => 92 :: l)
  | 92 :: a :: b :: rest =>
      if isxdigit a && isxdigit b then
        (parsePrint rest).map (fun l => unhex a b :: l)
      else none
  | 92 :: _ => none
  | c :: rest => (parsePrint rest).map (fun l => c :: l)

/-- Outcome of one `readline` call (mdbx_load.c:3207-3306). -/
inductive RlOut where
  /-- Returned 0 with a decoded record part. -/
  | ok (out : Line)
  /-- Returned EOF because the section terminator `DATA=END` was read;
      the global `Eof` flag is not set. -/
  | dataEnd
  /-- Returned EOF because stdin is exhausted; sets `Eof`. -/
  | realEof
  /-- Returned EOF on malformed input: sets `Eof` and prints the
      `unexpected end of input` diagnostic (`badend`, mdbx_load.c:3189). -/
  | bad
deriving DecidableEq

/-- Does the outcome set the global end-of-input flag `Eof`? -/
def RlOut.setsEof : RlOut → Bool
  | .ok _ => false
  | .dataEnd => false
  | .realEof => true
  | .bad => true

/-- Does the outcome print the `unexpected end of input` diagnostic? -/
def RlOut.printsBadend : RlOut → Bool
  | .bad => true
  | _ => false

/-- Conversion of the stripped line payload (mdbx_load.c:3261-3301):
    escape decoding in print mode, pairwise hex decoding in bytevalue mode. -/
def readlineBody (mode : Nat) (payload : Line) : RlOut :=
  if mode &&& PRINT ≠ 0 then
    match parsePrint payload with
    | some out => .ok out
    | none => .bad
  else
    match parseByteval payload with
    | some out => .ok out
    | none => .bad

/-- Shallow embedding of `readline` (mdbx_load.c:3207-3306) over a list of
    newline-terminated lines.  In header mode (`NOHDR` clear) the code first
    reads one character: a space introduces a data line; `D` with the rest of
    the line matching `ATA=END` ends the section; anything else is a format
    error (`badend`), where for an empty line the character read is the
    newline itself and `fgets` then consumes the following line.  Returns the
    outcome and the remaining input. -/
def readline (mode : Nat) (input : List Line) : RlOut × List Line :=
  if mode &&& NOHDR = 0 then
    match input with
    | [] => (.realEof, [])
    | [] :: rest =>
        match rest with
        | [] => (.bad, [])
        | _ :: rest2 => (.bad, rest2)
    | (c :: payload) :: rest =>
        if c = 32 then (readlineBody mode payload, rest)
        else if c = 68 && hasPfx (bytes "ATA=END") payload then (.dataEnd, rest)
        else (.bad, rest)
  else
    match input with
    | [] => (.realEof, [])
    | l :: rest => (readlineBody mode l, rest)

theorem parseBytevalGo_ok (l out : Line) (h : parseBytevalGo l = some out) :
    l.length = 2 * out.length ∧ (∀ c ∈ l, isxdigit c = true) ∧
    (∀ i a b, l.get? (2 * i) = some a → l.get? (2 * i + 1) = some b →
      out.get? i = some (unhex a b)) := by
  induction l using parseBytevalGo.induct generalizing out with
  | case1 =>
      simp only [parseBytevalGo] at h
      obtain rfl : ([] : Line) = out := Option.some.inj h
      refine ⟨rfl, by simp, ?_⟩
      intro i a b ha _
      simp at ha
  | case2 a b rest hx ih =>
      simp only [parseBytevalGo, hx, if_true, Option.map_eq_some'] at h
      obtain ⟨out', hout', rfl⟩ := h
      obtain ⟨h1, h2, h3⟩ := ih out' hout'
      refine ⟨by simp [h1]; ring, ?_, ?_⟩
      · intro c hc
        simp only [List.mem_cons] at hc
        rcases hc with rfl | rfl | hc
        · exact (Bool.and_eq_true _ _ |>.mp hx).1
        · exact (Bool.and_eq_true _ _ |>.mp hx).2
        · exact h2 c hc
      · intro i a' b' ha' hb'
        match i with
        | 0 =>
            simp only [Nat.mul_zero, List.get?] at ha' hb'
            obtain rfl := Option.some.inj ha'
            obtain rfl := Option.some.inj hb'
            rfl
        | i + 1 =>
            have e1 : 2 * (i + 1) = 2 * i + 1 + 1 := by ring
            have e2 : 2 * (i + 1) + 1 = 2 * i + 1 + 1 + 1 := by ring
            rw [e1] at ha'
            rw [e2] at hb'
            simp only [List.get?_cons_succ] at ha' hb'
            simpa using h3 i a' b' ha' hb'
  | case3 a b rest hx => simp [parseBytevalGo, hx] at h
  | case4 x => simp [parseBytevalGo] at h

theorem parseBytevalGo_isSome (l : Line) (hev : l.length % 2 = 0)
    (hhex : ∀ c ∈ l, isxdigit c = true) : ∃ out, parseBytevalGo l = some out := by
  induction l using parseBytevalGo.induct with
  | case1 => exact ⟨[], rfl⟩
  | case2 a b rest hx ih =>
      have hev' : rest.length % 2 = 0 := by
        simp only [List.length_cons] at hev
        omega
      obtain ⟨out, hout⟩ := ih hev' (fun c hc => hhex c (by simp [hc]))
      exact ⟨unhex a b :: out, by simp [parseBytevalGo, hx, hout]⟩
  | case3 a b rest hx =>
      exfalso
      have ha := hhex a (by simp)
      have hb := hhex b (by simp)
      simp [ha, hb] at hx
  | case4 x =>
      exfalso
      simp at hev

/-- C8: in bytevalue (hex) input mode, `readline` rejects any data line
    whose payload (excluding the trailing newline) has odd length or
    contains a character that is not an ASCII hexadecimal digit, reporting
    unexpected end of input and setting the end-of-input flag; for a valid
    payload of 2n hex digits it succeeds and produces exactly n bytes,
    where the i-th output byte is the value of the hex digit pair at
    positions 2i and 2i+1. -/
theorem readline_bytevalue (payload : Line) (rest : List Line) :
    ((payload.length % 2 = 1 ∨ ∃ c ∈ payload, isxdigit c = false) →
      readline 0 ((32 :: payload) :: rest) = (.bad, rest) ∧
      RlOut.setsEof .bad = true ∧ RlOut.printsBadend .bad = true) ∧
    ((payload.length % 2 = 0 ∧ ∀ c ∈ payload, isxdigit c = true) →
      ∃ out, readline 0 ((32 :: payload) :: rest) = (.ok out, rest) ∧
        payload.length = 2 * out.length ∧
        ∀ i a b, payload.get? (2 * i) = some a → payload.get? (2 * i + 1) = some b →
          out.get? i = some (unhex a b)) := by
  constructor
  · rintro (hodd | ⟨c, hc, hcbad⟩)
    · refine ⟨?_, rfl, rfl⟩
      simp [readline, readlineBody, parseByteval, NOHDR, PRINT, hodd]
    · refine ⟨?_, rfl, rfl⟩
      have hnone : parseBytevalGo payload = none := by
        cases h : parseBytevalGo payload with
        | none => rfl
        | some out =>
            obtain ⟨-, h2, -⟩ := parseBytevalGo_ok payload out h
            rw [h2 c hc] at hcbad
            exact absurd hcbad (by simp)
      simp [readline, readlineBody, parseByteval, NOHDR, PRINT, hnone]
  · rintro ⟨hev, hhex⟩
    obtain ⟨out, hout⟩ := parseBytevalGo_isSome payload hev hhex
    obtain ⟨h1, -, h3⟩ := parseBytevalGo_ok payload out hout
    refine ⟨out, ?_, h1, h3⟩
    have hodd : ¬ payload.length % 2 = 1 := by omega
    simp [readline, readlineBody, parseByteval, NOHDR, PRINT, hodd, hout]

/-- Witness for C8: the bad case at payload `"0g"` (odd char `g` is not hex)
    and the good case at payload `"0af3"`, which decodes to the two bytes
    0x0A, 0xF3. -/
theorem readline_bytevalue_witness :
    ((bytes "0g").length % 2 = 1 ∨ ∃ c ∈ bytes "0g", isxdigit c = false) ∧
    readline 0 ((32 :: bytes "0g") :: []) = (.bad, []) ∧
    ((bytes "0af3").length % 2 = 0 ∧ ∀ c ∈ bytes "0af3", isxdigit c = true) ∧
    ∃ out, readline 0 ((32 :: bytes "0af3") :: []) = (.ok out, []) ∧
      (bytes "0af3").length = 2 * out.length := by
  have hbad : (bytes "0g").length % 2 = 1 ∨ ∃ c ∈ bytes "0g", isxdigit c = false := by
    right; exact ⟨103, by decide, by decide⟩
  have hgood : (bytes "0af3").length % 2 = 0 ∧ ∀ c ∈ bytes "0af3", isxdigit c = true := by
    constructor
    · decide
    · intro c hc
      have hb : bytes "0af3" = [48, 97, 102, 51] := by decide
      rw [hb] at hc
      simp only [List.mem_cons, List.not_mem_nil, or_false] at hc
      rcases hc with rfl | rfl | rfl | rfl <;> decide
  refine ⟨hbad, ((readline_bytevalue (bytes "0g") []).1 hbad).1, hgood, ?_⟩
  obtain ⟨out, h1, h2, -⟩ := (readline_bytevalue (bytes "0af3") []).2 hgood
  exact ⟨out, h1, h2⟩

/-! ## MDBX API constants

The flag and error-code constants come from the public `mdbx.h` API header
(the tool includes it at mdbx_load.c:115); their numeric values are the
fixed public ABI values of libmdbx. -/

/-- Table flag: keys in reverse byte order. -/
def MDBX_REVERSEKEY : Nat := 0x02
/-- Table flag: sorted duplicate values per key. -/
def MDBX_DUPSORT : Nat := 0x04
/-- Table flag: native-integer keys. -/
def MDBX_INTEGERKEY : Nat := 0x08
/-- Table flag: fixed-size duplicate values. -/
def MDBX_DUPFIXED : Nat := 0x10
/-- Table flag: native-integer duplicate values. -/
def MDBX_INTEGERDUP : Nat := 0x20
/-- Table flag: duplicate values in reverse byte order. -/
def MDBX_REVERSEDUP : Nat := 0x40
/-- Table flag: create the table if it does not exist. -/
def MDBX_CREATE : Nat := 0x40000

/-- Put flag: do not overwrite an existing key. -/
def MDBX_NOOVERWRITE : Nat := 0x10
/-- Put flag: do not add a duplicate key/value pair. -/
def MDBX_NODUPDATA : Nat := 0x20
/-- Put flag: append in ascending key order (fast path). -/
def MDBX_APPEND : Nat := 0x20000
/-- Put flag: append a duplicate value for the current key. -/
def MDBX_APPENDDUP : Nat := 0x40000

/-- Error: key/value pair already present. -/
def MDBX_KEYEXIST : Int := -30799
/-- Error: invalid size of key or value for this table. -/
def MDBX_BAD_VALSIZE : Int := -30781
/-- The C `EOF` value returned by `readline`. -/
def CEOF : Int := -1

/-- `INTPTR_MAX` of the modelled (LP64) platform. -/
def INTPTR_MAX : Nat := 2 ^ 63 - 1

/-! ## Numeric scanning helpers used by `readhdr` -/

/-- Leading-whitespace skip shared by `atoi` and `sscanf`. -/
def skipSpaces : Line → Line
  | c :: r => if isspace c then skipSpaces r else c :: r
  | [] => []

/-- Accumulate leading decimal digits, stopping at the first non-digit. -/
def natDigits : Line → Nat → Nat
  | c :: r, acc => if 48 ≤ c ∧ c ≤ 57 then natDigits r (acc * 10 + (c - 48)) else acc
  | [], acc => acc

/-- C `atoi`: optional whitespace, optional sign, decimal digits (no digits
    yields 0).  Values outside the `int` range overflow in C; the claims
    only ever use in-range values, so the embedding keeps `Int`. -/
def atoi (l : Line) : Int :=
  let l := skipSpaces l
  match l with
  | 45 :: r => -(natDigits r 0 : Int)
  | 43 :: r => (natDigits r 0 : Int)
  | _ => (natDigits l 0 : Int)

/-- `sscanf("%" PRIu64)` on a digit string: optional whitespace then at
    least one decimal digit.  (C's `%u` conversions also accept a sign and
    have undefined behaviour past `UINT64_MAX`; the claims restrict inputs
    to plain digit strings whose value is a valid unsigned 64-bit number,
    which is the domain this embedding covers.) -/
def scanU64 (l : Line) : Option Nat :=
  let l := skipSpaces l
  match l with
  | c :: _ => if 48 ≤ c ∧ c ≤ 57 then some (natDigits l 0) else none
  | [] => none

/-- `sscanf("%u")`, same shape as `scanU64`. -/
def scanU32 (l : Line) : Option Nat := scanU64 l

/-- `sscanf("%p")`: optional whitespace, optional `0x`/`0X`, then at least
    one hex digit (glibc pointer scanning). -/
def scanPtrOk (l : Line) : Bool :=
  let l := skipSpaces l
  let l := match l with
    | 48 :: 120 :: r => r
    | 48 :: 88 :: r => r
    | _ => l
  match l with
  | c :: _ => isxdigit c
  | [] => false

/-- Truncation to `uint32_t` on assignment. -/
def uint32OfInt (i : Int) : Nat := (i % (2 ^ 32 : Int)).toNat

/-! ## The `readhdr` function -/

/-- Diagnostics printed to stderr by the tool (line numbers omitted). -/
inductive Diag where
  /-- `unsupported VERSION %d` (mdbx_load.c:3075). -/
  | unsupportedVersion (v : Int)
  /-- `unsupported FORMAT %s` (mdbx_load.c:3091). -/
  | unsupportedFormat
  /-- `unsupported type %s` (mdbx_load.c:3111). -/
  | unsupportedType
  /-- `invalid mapaddr %s` (mdbx_load.c:3126). -/
  | invalidMapaddr
  /-- `invalid mapsize %s` (mdbx_load.c:3141). -/
  | invalidMapsize
  /-- `invalid maxreaders %s` (mdbx_load.c:3156). -/
  | invalidMaxreaders
  /-- `unexpected format` (mdbx_load.c:3175). -/
  | unexpectedFormat
  /-- `unrecognized keyword ignored: %s` (mdbx_load.c:3180). -/
  | unrecognizedKeyword (key : Line)
  /-- `unexpected end of input` (mdbx_load.c:3190). -/
  | badend
  /-- `skip line %d: due %s` in rescue mode (mdbx_load.c:3537). -/
  | skipBadValsize
  /-- `mdbx_env_get_maxkeysize failed` (mdbx_load.c:3468). -/
  | maxkeysizeFailed
  /-- `failed to read key value` (mdbx_load.c:3517). -/
  | failedReadKeyValue
  /-- `mdbx_cursor_put failed, error %d %s` (mdbx_load.c:3542). -/
  | putFailed (rc : Int)
  /-- `Database size is too large for current system` (mdbx_load.c:3444). -/
  | mapsizeTooLarge
deriving DecidableEq

/-- The global header-derived state of the tool: `dbi_flags`, `version`,
    `subname`, `mode` and the `envinfo` fields the tool fills in. -/
structure HdrState where
  /-- `dbi_flags` (mdbx_load.c:3028). -/
  dbiFlags : Nat
  /-- `version` (mdbx_load.c:3026). -/
  version : Int
  /-- `subname` (mdbx_load.c:3024): the table name, `none` for the main table. -/
  subname : Option Line
  /-- `envinfo.mi_dxb_pagesize`, a `uint32_t`. -/
  pagesize : Nat
  /-- `envinfo.mi_maxreaders`, a `uint32_t`. -/
  maxreaders : Nat
  /-- `envinfo.mi_mapsize`, a `uint64_t`. -/
  mapsize : Nat
  /-- `mode` (mdbx_load.c:3022): `PRINT`/`NOHDR` bits. -/
  mode : Nat
deriving DecidableEq

/-- The `dbflags` keyword table (mdbx_load.c:3046-3052). -/
def dbflagsTable : List (Nat × Line) :=
  [(MDBX_REVERSEKEY, bytes "reversekey"),
   (MDBX_DUPSORT, bytes "dupsort"),
   (MDBX_INTEGERKEY, bytes "integerkey"),
   (MDBX_DUPFIXED, bytes "dupfixed"),
   (MDBX_INTEGERDUP, bytes "integerdup"),
   (MDBX_REVERSEDUP, bytes "reversedup")]

/-- The `dbflags` scan (mdbx_load.c:3163-3171): the first table entry whose
    name, followed by `=`, leads the buffer wins; the flag bit is set only
    when the byte after the `=` is `1`.  Returns the bits to or in, or
    `none` when no entry matched.  `b` is the line buffer, i.e. the line
    followed by the newline and NUL that `fgets` stored. -/
def dbflagMatch (b : Line) : List (Nat × Line) → Option Nat
  | [] => none
  | (bit, name) :: rest =>
      if hasPfx name b && (b.get? name.length == some 61) then
        some (if b.get? (name.length + 1) == some 49 then bit else 0)
      else dbflagMatch b rest

/-- Result of processing one header line. -/
inductive HLine where
  /-- Keep scanning header lines. -/
  | cont (st : HdrState) (ds : List Diag)
  /-- `HEADER=END`: header complete. -/
  | stop (st : HdrState)
  /-- `exit(EXIT_FAILURE)` was called. -/
  | exited (ds : List Diag)
deriving DecidableEq

/-- One iteration of the `readhdr` loop (mdbx_load.c:3058-3185), on the
    stored buffer: the line `l` as `fgets` wrote it (without its newline),
    followed by its newline and NUL, followed by the stale bytes `tail`
    that earlier reads left in the rest of `dbuf` (a 4096-byte `malloc`
    allocation, mdbx_load.c:3421-3422).  Every `strncmp`, `atoi`, `sscanf`
    and `memchr` for `\n` in the source reads the buffer only up to the
    line's own newline and NUL — the keywords compared and the values
    converted contain neither byte — so those tests are stated on the line
    itself, in source order.  The `memchr(dbuf.iov_base, '=',
    dbuf.iov_len)` of line 3173 is the one read that sees past the
    terminator: it scans the whole buffer, so a stale `=` left by an
    earlier, longer line sends a no-`=` line into the warn-and-continue
    branch instead of the `exit(EXIT_FAILURE)` one.  The warning prints
    the buffer as a C string after overwriting the found `=` with NUL
    (mdbx_load.c:3179-3183): everything before the first NUL or the found
    `=`, whichever comes first. -/
def hdrLineStepBuf (st : HdrState) (l : Line) (tail : Line) : HLine :=
  let b := l ++ 10 :: 0 :: tail
  if hasPfx (bytes "db_pagesize=") l then
    .cont { st with pagesize := uint32OfInt (atoi (l.drop 12)) } []
  else if hasPfx (bytes "duplicates=") l then
    .cont { st with dbiFlags := st.dbiFlags ||| MDBX_DUPSORT } []
  else if hasPfx (bytes "VERSION=") l then
    let v := atoi (l.drop 8)
    if v > 3 then .exited [.unsupportedVersion v]
    else .cont { st with version := v } []
  else if hasPfx (bytes "HEADER=END") l then .stop st
  else if hasPfx (bytes "format=") l then
    if hasPfx (bytes "print") (l.drop 7) then
      .cont { st with mode := st.mode ||| PRINT } []
    else if hasPfx (bytes "bytevalue") (l.drop 7) then .cont st []
    else .exited [.unsupportedFormat]
  else if hasPfx (bytes "database=") l then
    .cont { st with subname := some (l.drop 9) } []
  else if hasPfx (bytes "type=") l then
    if hasPfx (bytes "btree") (l.drop 5) then .cont st []
    else .exited [.unsupportedType]
  else if hasPfx (bytes "mapaddr=") l then
    if scanPtrOk (l.drop 8) then .cont st [] else .exited [.invalidMapaddr]
  else if hasPfx (bytes "mapsize=") l then
    match scanU64 (l.drop 8) with
    | some n => .cont { st with mapsize := n } []
    | none => .exited [.invalidMapsize]
  else if hasPfx (bytes "maxreaders=") l then
    match scanU32 (l.drop 11) with
    | some n => .cont { st with maxreaders := n } []
    | none => .exited [.invalidMaxreaders]
  else
    match dbflagMatch b dbflagsTable with
    | some add => .cont { st with dbiFlags := st.dbiFlags ||| add } []
    | none =>
        if 61 ∈ b then
          .cont st [.unrecognizedKeyword
            ((b.takeWhile (fun c => c ≠ 61)).takeWhile (fun c => c ≠ 0))]
        else .exited [.unexpectedFormat]

/-- One `readhdr` line for a buffer with no stale bytes beyond the line's
    terminator: the `tail = []` case of `hdrLineStepBuf`.  The two agree
    on every line that its own bytes decide — every recognized keyword
    line and every line containing `=` itself. -/
def hdrLineStep (st : HdrState) (l : Line) : HLine :=
  hdrLineStepBuf st l []

/-- Result of a whole `readhdr` call. -/
inductive HdrResult where
  /-- `exit(EXIT_FAILURE)` was called while parsing. -/
  | exited (ds : List Diag)
  /-- `HEADER=END` seen: parsing done, `rest` is the unconsumed input. -/
  | done (st : HdrState) (ds : List Diag) (rest : List Line)
  /-- Input exhausted: the global `Eof` flag is set. -/
  | eof (st : HdrState) (ds : List Diag)
deriving DecidableEq

/-- The `readhdr` line loop for a buffer that carries no stale bytes into
    any line's `=` search (`hdrLineStep`'s case).  `readhdrGoBuf` threads
    the real buffer; the two agree on every input whose lines each either
    match a recognized keyword or contain `=` themselves — in particular
    on every well-formed dump header. -/
def readhdrGo : List Line → HdrState → List Diag → HdrResult
  | [], st, ds => .eof st ds
  | l :: rest, st, ds =>
      match hdrLineStep st l with
      | .cont st2 d => readhdrGo rest st2 (ds ++ d)
      | .stop st2 => .done st2 ds rest
      | .exited d => .exited (ds ++ d)

/-- `readhdr` (mdbx_load.c:3054) for a stale-free buffer: resets
    `dbi_flags` to 0, then scans header lines until `HEADER=END`, end of
    input, or a fatal error. -/
def readhdr (input : List Line) (st : HdrState) : HdrResult :=
  readhdrGo input { st with dbiFlags := 0 } []

theorem dbflagMatch_none_of_no_eq (b : Line) (h : 61 ∉ b) :
    ∀ L, dbflagMatch b L = none := by
  intro L
  induction L with
  | nil => rfl
  | cons e rest ih =>
      obtain ⟨bit, name⟩ := e
      have hg : (b.get? name.length == some 61) = false := by
        cases hgg : b.get? name.length with
        | none => rfl
        | some v =>
            have hv : v ∈ b := List.get?_mem hgg
            by_contra hne
            simp only [beq_eq_false_iff_ne, ne_eq, not_not, Option.some.injEq] at hne
            exact h (hne ▸ hv)
      simp only [dbflagMatch, hg, Bool.and_false, Bool.false_eq_true, reduceIte]
      exact ih

/-- Association-list lookup. -/
def alookup {α β : Type} [DecidableEq α] : List (α × β) → α → Option β
  | [], _ => none
  | (a, b) :: r, k => if a = k then some b else alookup r k

/-- Association-list update/insert. -/
def aupdate {α β : Type} [DecidableEq α] : List (α × β) → α → β → List (α × β)
  | [], k, v => [(k, v)]
  | (a, b) :: r, k, v => if a = k then (k, v) :: r else (a, b) :: aupdate r k v

/-- Modelled from the spec: the contents of an environment — named (or
    anonymous, `none`) ordered tables, each mapping a key to the list of
    its values (several values only for `MDBX_DUPSORT` tables). -/
structure Store where
  /-- Table directory. -/
  tabs : List (Option Line × List (Line × List Line))
deriving DecidableEq

/-- Modelled from the spec: `mdbx_cursor_put` on table `name`.  Per the
    spec's error taxonomy and put-flag description: an oversized value
    fails with `MDBX_BAD_VALSIZE`; with `MDBX_NOOVERWRITE` an existing key
    fails with `MDBX_KEYEXIST`; with `MDBX_NODUPDATA` an existing
    duplicate fails with `MDBX_KEYEXIST`; otherwise the value is stored
    (replacing the current value, or appended as a duplicate for a dupsort
    table).  A failed put leaves the store unchanged (transaction-scoped
    errors mutate nothing). -/
def storePut (maxVal : Nat) (dupsort : Bool) (s : Store) (name : Option Line)
    (k v : Line) (flags : Nat) : Int × Store :=
  if v.length > maxVal then (MDBX_BAD_VALSIZE, s)
  else
    let tab := (alookup s.tabs name).getD []
    match alookup tab k with
    | none => (0, ⟨aupdate s.tabs name (aupdate tab k [v])⟩)
    | some vs =>
        if flags &&& MDBX_NOOVERWRITE ≠ 0 then (MDBX_KEYEXIST, s)
        else if dupsort then
          if v ∈ vs ∧ flags &&& MDBX_NODUPDATA ≠ 0 then (MDBX_KEYEXIST, s)
          else (0, ⟨aupdate s.tabs name (aupdate tab k (vs ++ [v]))⟩)
        else (0, ⟨aupdate s.tabs name (aupdate tab k [v])⟩)

/-- Modelled from the spec: the engine state seen by the tool — the last
    committed store and the current write transaction's working store
    (copy-on-write view). -/
structure EngSt where
  /-- Contents as of the last commit. -/
  committed : Store
  /-- The current write transaction's view. -/
  cur : Store
  /-- Is a write transaction open? -/
  inTxn : Bool
deriving DecidableEq

/-- One call of the tool into the storage-engine API.  The constructors
    `cursorGet` and `cursorDel` exist only so that their absence from the
    trace of every run can be stated; the tool never emits them. -/
inductive EOp where
  /-- `mdbx_env_create`. -/
  | envCreate
  /-- `mdbx_env_set_maxdbs`. -/
  | envSetMaxdbs (n : Nat)
  /-- `mdbx_env_set_geometry` with the given upper size bound. -/
  | envSetGeometry (upper : Nat)
  /-- `mdbx_env_open`. -/
  | envOpen
  /-- `mdbx_env_get_maxvalsize_ex`. -/
  | envGetMaxvalsize
  /-- `mdbx_env_close`. -/
  | envClose
  /-- `mdbx_txn_begin` (write). -/
  | txnBegin
  /-- `mdbx_txn_commit`. -/
  | txnCommit
  /-- `mdbx_txn_abort`. -/
  | txnAbort
  /-- `mdbx_dbi_open_ex`; `customCmp` is true when `anyway_greater` is
      passed for both comparators. -/
  | dbiOpen (name : Option Line) (flags : Nat) (customCmp : Bool)
  /-- `mdbx_dbi_close`. -/
  | dbiClose
  /-- `mdbx_cursor_open`. -/
  | cursorOpen
  /-- `mdbx_cursor_put`. -/
  | cursorPut (key val : Line) (flags : Nat)
  /-- A cursor/transaction get — never emitted by the tool. -/
  | cursorGet
  /-- A delete — never emitted by the tool. -/
  | cursorDel
deriving DecidableEq

/-! ## The `main` load loop -/

/-- The command-line options of `mdbx_load` relevant to loading. -/
structure Opts where
  /-- `-a`: append mode. -/
  append : Bool
  /-- `-N`: no-overwrite puts. -/
  noover : Bool
  /-- `-r`: rescue mode. -/
  rescue : Bool
  /-- `-T`: plaintext mode, sets `NOHDR | PRINT` (mdbx_load.c:3385). -/
  plaintext : Bool
  /-- `-s name`: load into the named table. -/
  subname : Option Line
deriving DecidableEq

/-- `putflags` (mdbx_load.c:3339 and 3381-3383). -/
def Opts.putflags (o : Opts) : Nat :=
  if o.noover then MDBX_NOOVERWRITE ||| MDBX_NODUPDATA else 0

/-- `anyway_greater` (mdbx_load.c:3326-3330): the comparator installed in
    append mode; it ignores both arguments and reports "greater". -/
def anyway_greater (_a _b : Line) : Int := 1

/-- The tool's mutable state during the load loop. -/
structure LoadSt where
  /-- Remaining input lines. -/
  input : List Line
  /-- Header-derived globals. -/
  hdr : HdrState
  /-- Engine state. -/
  eng : EngSt
  /-- Engine calls made so far. -/
  trace : List EOp
  /-- Diagnostics printed so far. -/
  diags : List Diag
  /-- The global `Eof` flag. -/
  eofFlag : Bool
deriving DecidableEq

/-- Outcome of the per-section record loop (mdbx_load.c:3508-3568). -/
inductive InnerOut where
  /-- `readline` returned EOF on the key: break to the commit. -/
  | eofBreak (st : LoadSt)
  /-- `goto txn_abort` with the given `rc`. -/
  | abort (st : LoadSt) (rc : Int)
  /-- Iteration bound exhausted (never reached with enough fuel). -/
  | fuelOut (st : LoadSt)
deriving DecidableEq

/-- Result of processing one decoded record in the loop body.  `prevk`
    holds the previous key buffer, which starts empty at section begin
    (mdbx_load.c:3507); `dupsort` and `tname` are fixed at
    `mdbx_dbi_open_ex` time.  In the spec-modelled engine,
    `mdbx_txn_commit`, `mdbx_txn_begin` and `mdbx_cursor_open` always
    succeed, so the corresponding error branches of the C code are
    unreachable and not represented. -/
inductive StepOut where
  /-- Continue with the next record: new engine state, the engine calls
      made, the diagnostics printed, the new previous-key buffer, and the
      new batch counter. -/
  | next (eng : EngSt) (ops : List EOp) (ds : List Diag) (prevk2 : Line) (batch2 : Nat)
  /-- `goto txn_abort` with `rc`. -/
  | fail (eng : EngSt) (ops : List EOp) (ds : List Diag) (rc : Int)
deriving DecidableEq

/-- One record's processing in the loop body (mdbx_load.c:3522-3567):
    the append-flag computation against the previous-key buffer, the
    cursor put, and the dispatch on its result — skip on `MDBX_KEYEXIST`
    under `-N`, skip with a diagnostic on `MDBX_BAD_VALSIZE` under `-r`,
    abort on any other error, and otherwise count the put towards the
    100-record batch, committing and reopening when it is full. -/
def recStep (opts : Opts) (maxVal : Nat) (dupsort : Bool) (tname : Option Line)
    (eng : EngSt) (prevk : Line) (batch : Nat) (key data : Line) : StepOut :=
  let appflag : Nat :=
    if opts.append then
      if dupsort then
        if prevk = key then MDBX_APPEND ||| MDBX_APPENDDUP else MDBX_APPEND
      else MDBX_APPEND
    else 0
  let prevk2 := if opts.append ∧ dupsort then
      (if prevk = key then prevk else key) else prevk
  let flags := opts.putflags ||| appflag
  let pr := storePut maxVal dupsort eng.cur tname key data flags
  let eng2 : EngSt := { eng with cur := pr.2 }
  if pr.1 = MDBX_KEYEXIST ∧ opts.putflags ≠ 0 then
    .next eng2 [.cursorPut key data flags] [] prevk2 batch
  else if pr.1 = MDBX_BAD_VALSIZE ∧ opts.rescue then
    .next eng2 [.cursorPut key data flags] [.skipBadValsize] prevk2 batch
  else if pr.1 ≠ 0 then
    .fail eng2 [.cursorPut key data flags] [.putFailed pr.1] pr.1
  else if batch + 1 = 100 then
    .next { committed := pr.2, cur := pr.2, inTxn := true }
      [.cursorPut key data flags, .txnCommit, .txnBegin, .cursorOpen] [] prevk2 0
  else
    .next eng2 [.cursorPut key data flags] [] prevk2 (batch + 1)

/-- The record loop of `main` (mdbx_load.c:3506-3568): read a key line
    and a value line, then process the record with `recStep`. -/
def loadRecords (opts : Opts) (maxVal : Nat) (dupsort : Bool) (tname : Option Line) :
    Nat → LoadSt → Line → Nat → InnerOut
  | 0, st, _, _ => .fuelOut st
  | fuel + 1, st, prevk, batch =>
    match readline st.hdr.mode st.input with
    | (.dataEnd, in1) => .eofBreak { st with input := in1 }
    | (.realEof, in1) => .eofBreak { st with input := in1, eofFlag := true }
    | (.bad, in1) =>
        let st2 : LoadSt :=
          { st with input := in1, eofFlag := true, diags := st.diags ++ [.badend] }
        .eofBreak st2
    | (.ok key, in1) =>
      match readline st.hdr.mode in1 with
      | (.dataEnd, in2) =>
          let st2 : LoadSt :=
            { st with input := in2, diags := st.diags ++ [.failedReadKeyValue] }
          .abort st2 CEOF
      | (.realEof, in2) =>
          let st2 : LoadSt :=
            { st with
              input := in2
              eofFlag := true
              diags := st.diags ++ [.failedReadKeyValue] }
          .abort st2 CEOF
      | (.bad, in2) =>
          let st2 : LoadSt :=
            { st with
              input := in2
              eofFlag := true
              diags := st.diags ++ [.badend, .failedReadKeyValue] }
          .abort st2 CEOF
      | (.ok data, in2) =>
        match recStep opts maxVal dupsort tname st.eng prevk batch key data with
        | .next eng2 ops ds prevk2 batch2 =>
            loadRecords opts maxVal dupsort tname fuel
              { st with
                input := in2
                eng := eng2
                trace := st.trace ++ ops
                diags := st.diags ++ ds } prevk2 batch2
        | .fail eng2 ops ds rc =>
            .abort
              { st with
                input := in2
                eng := eng2
                trace := st.trace ++ ops
                diags := st.diags ++ ds } rc

/-- Outcome of the outer section loop of `main`. -/
inductive RunOut where
  /-- Reached the final `txn_abort`/`env_close`/`return` path with `rc`. -/
  | ret (st : LoadSt) (rc : Int)
  /-- `exit(EXIT_FAILURE)` was called inside `readhdr` (no cleanup). -/
  | exited (st : LoadSt)
deriving DecidableEq

/-- The outer `while (!Eof)` loop of `main` (mdbx_load.c:3478-3582): begin
    a write transaction, open the table by the current `subname` with
    `MDBX_CREATE` (and the `anyway_greater` comparators exactly in append
    mode), open a cursor, run the record loop, commit, close the table,
    reset `subname`, and read the next section header.  `user_break`
    (signal delivery) is not modelled.  `fuel` bounds the number of
    sections. -/
def loadSections (opts : Opts) (maxVal : Nat) : Nat → LoadSt → Int → RunOut
  | 0, st, rc => .ret st rc
  | fuel + 1, st, rc =>
    if st.eofFlag then .ret st rc
    else
      let dupsort := st.hdr.dbiFlags &&& MDBX_DUPSORT ≠ 0
      let tname := st.hdr.subname
      let st1 : LoadSt :=
        { st with
          eng := { committed := st.eng.committed, cur := st.eng.committed, inTxn := true }
          trace := st.trace ++ [.txnBegin,
            .dbiOpen tname (st.hdr.dbiFlags ||| MDBX_CREATE) opts.append, .cursorOpen] }
      match loadRecords opts maxVal dupsort tname (st1.input.length + 1) st1 [] 0 with
      | .fuelOut st2 => .ret st2 0
      | .abort st2 rc2 =>
          let st3 : LoadSt :=
            { st2 with
              eng := { committed := st2.eng.committed, cur := st2.eng.committed,
                       inTxn := false }
              trace := st2.trace ++ [.txnAbort] }
          .ret st3 rc2
      | .eofBreak st2 =>
        let st3 : LoadSt :=
          { st2 with
            eng := { committed := st2.eng.cur, cur := st2.eng.cur, inTxn := false }
            trace := st2.trace ++ [.txnCommit, .dbiClose]
            hdr := { st2.hdr with subname := none } }
        if st3.hdr.mode &&& NOHDR ≠ 0 then
          loadSections opts maxVal fuel st3 0
        else
          match readhdr st3.input st3.hdr with
          | .exited ds => .exited { st3 with diags := st3.diags ++ ds }
          | .done h2 ds rest =>
              let st4 : LoadSt :=
                { st3 with hdr := h2, diags := st3.diags ++ ds, input := rest }
              loadSections opts maxVal fuel st4 0
          | .eof h2 ds =>
              let st4 : LoadSt :=
                { st3 with
                  hdr := h2
                  diags := st3.diags ++ ds
                  input := []
                  eofFlag := true }
              loadSections opts maxVal fuel st4 0

/-- Result of a whole run of the tool. -/
structure RunRes where
  /-- All engine calls, in order. -/
  trace : List EOp
  /-- All diagnostics, in order. -/
  diags : List Diag
  /-- Did the process exit with `EXIT_SUCCESS`? -/
  exitOk : Bool
  /-- The committed contents of the environment at process end. -/
  store : Store
deriving DecidableEq

/-- `main` (mdbx_load.c:3332-3590) on parsed options `opts`, over an
    environment whose committed contents are `init` and whose maximum
    value size (`mdbx_env_get_maxvalsize_ex`) is `maxVal`: read the first
    header (for `mapsize=`), create and configure the environment
    (geometry only when the header carried a nonzero `mapsize`), open it,
    size the key buffer, and run the section loop.  An
    `exit(EXIT_FAILURE)` inside `readhdr` skips `mdbx_env_close`.  The
    exit status is `EXIT_SUCCESS` iff the final `rc` is zero; note that on
    the two pre-loop `goto env_close` paths `rc` is still 0 from
    `mdbx_env_create`. -/
def mainRun (opts : Opts) (maxVal : Nat) (init : Store) (input : List Line) : RunRes :=
  let hdr0 : HdrState :=
    { dbiFlags := 0
      version := 0
      subname := opts.subname
      pagesize := 0
      maxreaders := 0
      mapsize := 0
      mode := if opts.plaintext then NOHDR ||| PRINT else 0 }
  let first : HdrState × List Diag × Bool × List Line × Bool :=
    if hdr0.mode &&& NOHDR = 0 then
      match readhdr input hdr0 with
      | .exited ds => (hdr0, ds, true, [], false)
      | .done h1 ds rest => (h1, ds, false, rest, false)
      | .eof h1 ds => (h1, ds, false, [], true)
    else (hdr0, [], false, input, false)
  match first with
  | (h1, ds1, exited1, input1, eof1) =>
    if exited1 then { trace := [], diags := ds1, exitOk := false, store := init }
    else
      let tr0 : List EOp := [.envCreate, .envSetMaxdbs 2]
      if h1.mapsize ≠ 0 ∧ h1.mapsize > INTPTR_MAX then
        { trace := tr0 ++ [.envClose]
          diags := ds1 ++ [.mapsizeTooLarge]
          exitOk := true
          store := init }
      else
        let tr1 := tr0 ++
          (if h1.mapsize ≠ 0 then [EOp.envSetGeometry h1.mapsize] else [])
        let tr2 := tr1 ++ [.envOpen, .envGetMaxvalsize]
        if maxVal ≥ INTPTR_MAX / 4 then
          { trace := tr2 ++ [.envClose]
            diags := ds1 ++ [.maxkeysizeFailed]
            exitOk := true
            store := init }
        else
          let st0 : LoadSt :=
            { input := input1
              hdr := h1
              eng := { committed := init, cur := init, inTxn := false }
              trace := tr2
              diags := ds1
              eofFlag := eof1 }
          match loadSections opts maxVal (input1.length + 2) st0 0 with
          | .ret st rc =>
              { trace := st.trace ++ [.envClose]
                diags := st.diags
                exitOk := rc == 0
                store := st.eng.committed }
          | .exited st =>
              { trace := st.trace
                diags := st.diags
                exitOk := false
                store := st.eng.committed }

/-! ## Encoded record streams

The dump format for a data section in bytevalue mode: each record is a
key line and a value line, each a space followed by the lowercase hex
encoding of the bytes, and the section ends with `DATA=END`. -/

/-- The state carried by an `InnerOut`. -/
def InnerOut.st : InnerOut → LoadSt
  | .eofBreak st => st
  | .abort st _ => st
  | .fuelOut st => st

/-- The state carried by a `RunOut`. -/
def RunOut.st : RunOut → LoadSt
  | .ret st _ => st
  | .exited st => st

/-- The cursor-put calls of a trace, in order. -/
def putsOf (t : List EOp) : List (Line × Line × Nat) :=
  t.filterMap (fun op => match op with
    | .cursorPut k v f => some (k, v, f)
    | _ => none)

/-- The table-open calls of a trace, in order. -/
def dbiOpensOf (t : List EOp) : List (Option Line × Nat × Bool) :=
  t.filterMap (fun op => match op with
    | .dbiOpen n f c => some (n, f, c)
    | _ => none)

/-- Lowercase hex digit for a nibble (as `mdbx_dump` emits). -/
def hexDigitByte (n : Nat) : Nat := if n < 10 then 48 + n else 87 + n

/-- Lowercase hex encoding of a byte string. -/
def hexEnc : Line → Line
  | [] => []
  | b :: r => hexDigitByte (b / 16) :: hexDigitByte (b % 16) :: hexEnc r

/-- The `DATA=END` section terminator line. -/
def dataEndLine : Line := bytes "DATA=END"

/-- The two dump lines of one record. -/
def encodeRec (r : Line × Line) : List Line := [32 :: hexEnc r.1, 32 :: hexEnc r.2]

/-- The dump lines of a record list. -/
def encodeRecs (recs : List (Line × Line)) : List Line := (recs.map encodeRec).flatten

set_option maxRecDepth 4000 in
theorem hexDigitByte_spec :
    ∀ b, b < 256 →
      (isxdigit (hexDigitByte (b / 16)) && isxdigit (hexDigitByte (b % 16)) &&
        decide (unhex (hexDigitByte (b / 16)) (hexDigitByte (b % 16)) = b)) = true := by
  decide

theorem parseBytevalGo_hexEnc (l : Line) (h : ∀ b ∈ l, b < 256) :
    parseBytevalGo (hexEnc l) = some l := by
  induction l with
  | nil => rfl
  | cons b r ih =>
      have hb := hexDigitByte_spec b (h b (by simp))
      simp only [Bool.and_eq_true, decide_eq_true_eq] at hb
      obtain ⟨⟨h1, h2⟩, h3⟩ := hb
      simp only [hexEnc, parseBytevalGo, h1, h2, Bool.and_self, if_true,
        ih (fun b hb => h b (by simp [hb])), Option.map_some', h3]

theorem hexEnc_length (l : Line) : (hexEnc l).length = 2 * l.length := by
  induction l with
  | nil => rfl
  | cons b r ih => simp [hexEnc, ih]; ring

theorem parseByteval_hexEnc (l : Line) (h : ∀ b ∈ l, b < 256) :
    parseByteval (hexEnc l) = some l := by
  have : (hexEnc l).length % 2 = 0 := by simp [hexEnc_length]
  simp [parseByteval, this, parseBytevalGo_hexEnc l h]

/-- `readline` in header/bytevalue mode on an encoded record line. -/
theorem readline_encoded (mode : Nat) (hm : mode = 0) (l : Line)
    (h : ∀ b ∈ l, b < 256) (rest : List Line) :
    readline mode ((32 :: hexEnc l) :: rest) = (.ok l, rest) := by
  subst hm
  simp [readline, readlineBody, NOHDR, PRINT, parseByteval_hexEnc l h]

/-- `readline` in header mode on the `DATA=END` terminator. -/
theorem readline_dataEnd (mode : Nat) (hm : mode = 0) (rest : List Line) :
    readline mode (dataEndLine :: rest) = (.dataEnd, rest) := by
  subst hm
  have hd : dataEndLine = 68 :: bytes "ATA=END" := by decide
  rw [hd]
  simp only [readline, NOHDR, Nat.and_zero _]
  norm_num
  decide

end MdbxLoad

namespace MdbxLoad

/-! ## Pure reference view of the record loop -/

/-- Accumulator of the pure record loop `refLoad`. -/
structure RefSt where
  /-- Engine state. -/
  eng : EngSt
  /-- Engine calls made so far. -/
  trace : List EOp
  /-- Diagnostics printed so far. -/
  diags : List Diag
  /-- The previous-key buffer. -/
  prevk : Line
  /-- Successful puts since the last commit. -/
  batch : Nat
deriving DecidableEq

/-- Outcome of `refLoad`. -/
inductive RefOut where
  /-- All records processed. -/
  | done (r : RefSt)
  /-- A put failed fatally; `remaining` was never attempted. -/
  | abort (r : RefSt) (rc : Int) (remaining : List (Line × Line))
deriving DecidableEq

/-- The record loop of `main` stripped of input parsing: what
    `loadRecords` does to the engine state, trace and diagnostics once
    the records are decoded (same dispatch as mdbx_load.c:3508-3568). -/
def refLoad (opts : Opts) (maxVal : Nat) (dupsort : Bool) (tname : Option Line) :
    List (Line × Line) → RefSt → RefOut
  | [], r => .done r
  | (key, data) :: recs, r =>
    match recStep opts maxVal dupsort tname r.eng r.prevk r.batch key data with
    | .next eng2 ops ds prevk2 batch2 =>
        refLoad opts maxVal dupsort tname recs
          { eng := eng2
            trace := r.trace ++ ops
            diags := r.diags ++ ds
            prevk := prevk2
            batch := batch2 }
    | .fail eng2 ops ds rc =>
        .abort
          { eng := eng2
            trace := r.trace ++ ops
            diags := r.diags ++ ds
            prevk := r.prevk
            batch := r.batch } rc recs

theorem encodeRecs_cons (k v : Line) (recs : List (Line × Line)) :
    encodeRecs ((k, v) :: recs) =
      (32 :: hexEnc k) :: (32 :: hexEnc v) :: encodeRecs recs := by
  simp [encodeRecs, encodeRec]

set_option maxHeartbeats 1600000 in
/-- `loadRecords` over an encoded record stream is the pure loop
    `refLoad` on the decoded records: all other parts of `LoadSt` are
    carried through unchanged, and the input ends up past the `DATA=END`
    terminator, or at the unprocessed remainder if a put aborted the
    section. -/
theorem loadRecords_encoded (opts : Opts) (maxVal : Nat) (dupsort : Bool)
    (tname : Option Line) (recs : List (Line × Line)) :
    ∀ (fuel : Nat) (st : LoadSt) (prevk : Line) (batch : Nat) (rest : List Line),
      recs.length < fuel →
      st.hdr.mode = 0 →
      st.input = encodeRecs recs ++ dataEndLine :: rest →
      (∀ r ∈ recs, (∀ b ∈ r.1, b < 256) ∧ (∀ b ∈ r.2, b < 256)) →
      loadRecords opts maxVal dupsort tname fuel st prevk batch =
        (match refLoad opts maxVal dupsort tname recs
            ⟨st.eng, st.trace, st.diags, prevk, batch⟩ with
         | .done r => .eofBreak
             { st with
               input := rest
               eng := r.eng
               trace := r.trace
               diags := r.diags }
         | .abort r rc rem => .abort
             { st with
               input := encodeRecs rem ++ dataEndLine :: rest
               eng := r.eng
               trace := r.trace
               diags := r.diags } rc) := by
  induction recs with
  | nil =>
      intro fuel st prevk batch rest hfuel hmode hin hbytes
      match fuel, hfuel with
      | fuel + 1, _ =>
        simp only [encodeRecs, List.map_nil, List.flatten_nil, List.nil_append] at hin
        simp only [loadRecords, hin, readline_dataEnd _ hmode, refLoad]
  | cons rec recs ih =>
      intro fuel st prevk batch rest hfuel hmode hin hbytes
      obtain ⟨key, data⟩ := rec
      match fuel, hfuel with
      | fuel + 1, hfuel =>
        have hkb : ∀ b ∈ key, b < 256 := (hbytes (key, data) (by simp)).1
        have hdb : ∀ b ∈ data, b < 256 := (hbytes (key, data) (by simp)).2
        rw [encodeRecs_cons] at hin
        simp only [List.cons_append] at hin
        have hfuel2 : recs.length < fuel := by
          simp only [List.length_cons] at hfuel
          omega
        have hbytes2 : ∀ r ∈ recs, (∀ b ∈ r.1, b < 256) ∧ ∀ b ∈ r.2, b < 256 :=
          fun r hr => hbytes r (List.mem_cons_of_mem _ hr)
        simp only [loadRecords, hin, readline_encoded _ hmode key hkb,
          readline_encoded _ hmode data hdb, refLoad]
        cases hstep : recStep opts maxVal dupsort tname st.eng prevk batch key data with
        | next eng2 ops ds prevk2 batch2 =>
            have hrec := ih fuel
              { input := encodeRecs recs ++ dataEndLine :: rest
                hdr := st.hdr
                eng := eng2
                trace := st.trace ++ ops
                diags := st.diags ++ ds
                eofFlag := st.eofFlag } prevk2 batch2 rest hfuel2 hmode rfl hbytes2
            exact hrec
        | fail eng2 ops ds rc => rfl

/-! ## Facts about the spec-modelled put -/

/-- Lookup of a key's values: the tool-visible contents of table `n`. -/
def storeGet (s : Store) (n : Option Line) (k : Line) : Option (List Line) :=
  alookup ((alookup s.tabs n).getD []) k

/-- Does table `n` currently contain key `k`? -/
def hasKey (s : Store) (n : Option Line) (k : Line) : Bool :=
  (storeGet s n k).isSome

theorem alookup_aupdate {α β : Type} [DecidableEq α] (l : List (α × β))
    (k : α) (v : β) (k' : α) :
    alookup (aupdate l k v) k' = if k = k' then some v else alookup l k' := by
  induction l with
  | nil => rfl
  | cons e r ih =>
      obtain ⟨a, b⟩ := e
      by_cases hak : a = k
      · subst hak
        by_cases h : a = k' <;> simp [aupdate, alookup, h]
      · have hka : ¬ k = a := fun hh => hak hh.symm
        by_cases h1 : a = k'
        · subst h1
          simp [aupdate, hak, alookup, hka]
        · by_cases h2 : k = k'
          · subst h2
            simp [aupdate, hak, alookup, h1, ih]
          · simp [aupdate, hak, alookup, h1, h2, ih]

theorem storeGet_storePut (maxVal : Nat) (d : Bool) (s : Store) (n : Option Line)
    (k v : Line) (fl : Nat) (n' : Option Line) (k' : Line) :
    storeGet (storePut maxVal d s n k v fl).2 n' k' = storeGet s n' k' ∨
    (n = n' ∧ k = k' ∧ (storeGet (storePut maxVal d s n k v fl).2 n' k').isSome) := by
  unfold storePut
  by_cases hv : v.length > maxVal
  · left; simp [hv]
  · simp only [hv, if_false]
    rcases halo : alookup ((alookup s.tabs n).getD []) k with _ | vs
    · by_cases hn : n = n'
      · subst hn
        by_cases hk : k = k'
        · subst hk
          right
          refine ⟨rfl, rfl, ?_⟩
          simp [storeGet, alookup_aupdate, halo]
        · left
          simp [storeGet, alookup_aupdate, hk, halo]
      · left
        simp [storeGet, alookup_aupdate, hn, halo]
    · by_cases h1 : fl &&& MDBX_NOOVERWRITE ≠ 0
      · left; simp [halo, h1]
      · by_cases hd : d = true
        · by_cases h2 : v ∈ vs ∧ fl &&& MDBX_NODUPDATA ≠ 0
          · left; simp [halo, h1, hd, h2]
          · by_cases hn : n = n'
            · subst hn
              by_cases hk : k = k'
              · subst hk
                right
                refine ⟨rfl, rfl, ?_⟩
                simp [storeGet, halo, h1, hd, h2, alookup_aupdate]
              · left
                simp [storeGet, halo, h1, hd, h2, alookup_aupdate, hk]
            · left
              simp [storeGet, halo, h1, hd, h2, alookup_aupdate, hn]
        · by_cases hn : n = n'
          · subst hn
            by_cases hk : k = k'
            · subst hk
              right
              refine ⟨rfl, rfl, ?_⟩
              simp [storeGet, halo, h1, hd, alookup_aupdate]
            · left
              simp [storeGet, halo, h1, hd, alookup_aupdate, hk]
          · left
            simp [storeGet, halo, h1, hd, alookup_aupdate, hn]

theorem hasKey_storePut (maxVal : Nat) (d : Bool) (s : Store) (n : Option Line)
    (k v : Line) (fl : Nat) (n' : Option Line) (k' : Line)
    (h : hasKey s n' k' = true) : hasKey (storePut maxVal d s n k v fl).2 n' k' = true := by
  rcases storeGet_storePut maxVal d s n k v fl n' k' with heq | ⟨-, -, hsome⟩
  · unfold hasKey at h ⊢
    rw [heq]
    exact h
  · unfold hasKey
    exact hsome

theorem storePut_rc (maxVal : Nat) (d : Bool) (s : Store) (n : Option Line)
    (k v : Line) (fl : Nat) :
    (storePut maxVal d s n k v fl).1 = 0 ∨
    ((storePut maxVal d s n k v fl).1 = MDBX_BAD_VALSIZE ∧ maxVal < v.length ∧
      (storePut maxVal d s n k v fl).2 = s) ∨
    ((storePut maxVal d s n k v fl).1 = MDBX_KEYEXIST ∧
      (fl &&& MDBX_NOOVERWRITE ≠ 0 ∨ fl &&& MDBX_NODUPDATA ≠ 0) ∧
      (storePut maxVal d s n k v fl).2 = s) := by
  unfold storePut
  by_cases hv : v.length > maxVal
  · right; left
    refine ⟨by simp [hv], by omega, by simp [hv]⟩
  · simp only [hv, if_false]
    rcases halo : alookup ((alookup s.tabs n).getD []) k with _ | vs
    · left; simp [halo]
    · by_cases h1 : fl &&& MDBX_NOOVERWRITE ≠ 0
      · right; right; simp [halo, h1]
      · by_cases hd : d = true
        · by_cases h2 : v ∈ vs ∧ fl &&& MDBX_NODUPDATA ≠ 0
          · right; right; simp [halo, h1, hd, h2]
          · left; simp [halo, h1, hd, h2]
        · left; simp [halo, h1, hd]

theorem storePut_bad_iff (maxVal : Nat) (d : Bool) (s : Store) (n : Option Line)
    (k v : Line) (fl : Nat) :
    (storePut maxVal d s n k v fl).1 = MDBX_BAD_VALSIZE ↔ maxVal < v.length := by
  constructor
  · intro h
    rcases storePut_rc maxVal d s n k v fl with h0 | ⟨-, hlen, -⟩ | ⟨hk, -, -⟩
    · rw [h0] at h
      exact absurd h (by decide)
    · exact hlen
    · rw [hk] at h
      exact absurd h (by decide)
  · intro h
    unfold storePut
    simp [show v.length > maxVal from h]

theorem storePut_keyexist (maxVal : Nat) (d : Bool) (s : Store) (n : Option Line)
    (k v : Line) (fl : Nat) (hno : fl &&& MDBX_NOOVERWRITE ≠ 0)
    (hv : v.length ≤ maxVal) (hk : hasKey s n k = true) :
    storePut maxVal d s n k v fl = (MDBX_KEYEXIST, s) := by
  unfold hasKey storeGet at hk
  unfold storePut
  rcases halo : alookup ((alookup s.tabs n).getD []) k with _ | vs
  · rw [halo] at hk
    simp at hk
  · simp [show ¬ v.length > maxVal by omega, halo, hno]

/-! ## Facts about one record step -/

theorem engst_eta (eng : EngSt) : ({ eng with cur := eng.cur } : EngSt) = eng := rfl

theorem flags_bits_putflags (opts : Opts) (dupsort : Bool) (prevk key : Line)
    (hbits : (opts.putflags |||
        (if opts.append = true then
          (if dupsort = true then
            (if prevk = key then MDBX_APPEND ||| MDBX_APPENDDUP else MDBX_APPEND)
          else MDBX_APPEND) else 0)) &&& MDBX_NOOVERWRITE ≠ 0 ∨
      (opts.putflags |||
        (if opts.append = true then
          (if dupsort = true then
            (if prevk = key then MDBX_APPEND ||| MDBX_APPENDDUP else MDBX_APPEND)
          else MDBX_APPEND) else 0)) &&& MDBX_NODUPDATA ≠ 0) :
    opts.putflags ≠ 0 := by
  intro hpf
  rw [hpf] at hbits
  split_ifs at hbits <;> revert hbits <;> decide

theorem recStep_fail_inv (opts : Opts) (maxVal : Nat) (dupsort : Bool)
    (tname : Option Line) (eng : EngSt) (prevk : Line) (batch : Nat)
    (key data : Line) (eng2 : EngSt) (ops : List EOp) (ds : List Diag) (rc : Int)
    (h : recStep opts maxVal dupsort tname eng prevk batch key data =
      .fail eng2 ops ds rc) :
    rc = MDBX_BAD_VALSIZE ∧ maxVal < data.length ∧ opts.rescue = false ∧
    ds = [.putFailed MDBX_BAD_VALSIZE] ∧
    (∃ flags, ops = [.cursorPut key data flags]) ∧ eng2 = eng := by
  simp only [recStep] at h
  rcases storePut_rc maxVal dupsort eng.cur tname key data
      (opts.putflags |||
        (if opts.append = true then
          (if dupsort = true then
            (if prevk = key then MDBX_APPEND ||| MDBX_APPENDDUP else MDBX_APPEND)
          else MDBX_APPEND) else 0)) with h0 | ⟨hb, hlen, hst⟩ | ⟨hk, hfl, hst⟩
  · rw [h0] at h
    have c1 : ¬ ((0 : Int) = MDBX_KEYEXIST ∧ opts.putflags ≠ 0) := by
      rintro ⟨hc, -⟩; revert hc; decide
    have c2 : ¬ ((0 : Int) = MDBX_BAD_VALSIZE ∧ opts.rescue = true) := by
      rintro ⟨hc, -⟩; revert hc; decide
    simp only [c1, if_false, c2, ne_eq, not_true_eq_false, if_neg, not_not] at h
    split at h <;> simp at h
  · rw [hb] at h
    have c1 : ¬ (MDBX_BAD_VALSIZE = MDBX_KEYEXIST ∧ opts.putflags ≠ 0) := by
      rintro ⟨hc, -⟩; revert hc; decide
    rw [if_neg c1] at h
    by_cases hres : opts.rescue = true
    · rw [if_pos ⟨rfl, hres⟩] at h
      simp at h
    · rw [if_neg (by rintro ⟨-, hc⟩; exact hres hc)] at h
      rw [if_pos (by decide)] at h
      injection h with h1 h2 h3 h4
      refine ⟨h4.symm, hlen, by simpa using hres, h3.symm, ⟨_, h2.symm⟩, ?_⟩
      rw [← h1, hst, engst_eta]
  · rw [hk] at h
    have hpf : opts.putflags ≠ 0 := flags_bits_putflags opts dupsort prevk key hfl
    rw [if_pos ⟨rfl, hpf⟩] at h
    simp at h

theorem recStep_next_inv (opts : Opts) (maxVal : Nat) (dupsort : Bool)
    (tname : Option Line) (eng : EngSt) (prevk : Line) (batch : Nat)
    (key data : Line) (eng2 : EngSt) (ops : List EOp) (ds : List Diag)
    (prevk2 : Line) (batch2 : Nat)
    (h : recStep opts maxVal dupsort tname eng prevk batch key data =
      .next eng2 ops ds prevk2 batch2) :
    ∃ flags,
      flags = opts.putflags |||
        (if opts.append = true then
          (if dupsort = true then
            (if prevk = key then MDBX_APPEND ||| MDBX_APPENDDUP else MDBX_APPEND)
          else MDBX_APPEND) else 0) ∧
      (ops = [.cursorPut key data flags] ∨
        ops = [.cursorPut key data flags, .txnCommit, .txnBegin, .cursorOpen]) ∧
      prevk2 = (if opts.append = true ∧ dupsort = true then key else prevk) ∧
      (ds = if maxVal < data.length then [.skipBadValsize] else []) ∧
      (maxVal < data.length → opts.rescue = true ∧ eng2 = eng ∧ batch2 = batch) ∧
      eng2.cur = (storePut maxVal dupsort eng.cur tname key data flags).2 ∧
      (∀ n' k', hasKey eng.cur n' k' = true → hasKey eng2.cur n' k' = true) ∧
      (eng2.committed = eng.committed ∨ eng2.committed = eng2.cur) := by
  simp only [recStep] at h
  have hprevk2 : (if opts.append = true ∧ dupsort = true then
      (if prevk = key then prevk else key) else prevk) =
      (if opts.append = true ∧ dupsort = true then key else prevk) := by
    by_cases hc : opts.append = true ∧ dupsort = true
    · by_cases hpk : prevk = key <;> simp [hc, hpk]
    · simp [hc]
  rcases storePut_rc maxVal dupsort eng.cur tname key data
      (opts.putflags |||
        (if opts.append = true then
          (if dupsort = true then
            (if prevk = key then MDBX_APPEND ||| MDBX_APPENDDUP else MDBX_APPEND)
          else MDBX_APPEND) else 0)) with h0 | ⟨hb, hlen, hst⟩ | ⟨hk, hfl, hst⟩
  · -- success: batch branch or plain continue
    have hnb : ¬ maxVal < data.length := by
      intro hlen
      have := (storePut_bad_iff maxVal dupsort eng.cur tname key data
          (opts.putflags |||
            (if opts.append = true then
              (if dupsort = true then
                (if prevk = key then MDBX_APPEND ||| MDBX_APPENDDUP else MDBX_APPEND)
              else MDBX_APPEND) else 0))).mpr hlen
      rw [h0] at this
      exact absurd this (by decide)
    rw [h0] at h
    have c1 : ¬ ((0 : Int) = MDBX_KEYEXIST ∧ opts.putflags ≠ 0) := by
      rintro ⟨hc, -⟩; revert hc; decide
    have c2 : ¬ ((0 : Int) = MDBX_BAD_VALSIZE ∧ opts.rescue = true) := by
      rintro ⟨hc, -⟩; revert hc; decide
    rw [if_neg c1, if_neg c2, if_neg (by decide : ¬ (0 : Int) ≠ 0)] at h
    by_cases hbatch : batch + 1 = 100
    · rw [if_pos hbatch] at h
      injection h with h1 h2 h3 h4 h5
      refine ⟨_, rfl, Or.inr (by rw [← h2]), by rw [← h4, hprevk2],
        by rw [← h3]; simp [hnb], fun hc => absurd hc hnb, by rw [← h1], ?_, ?_⟩
      · intro n' k' hkey
        rw [← h1]
        exact hasKey_storePut _ _ _ _ _ _ _ _ _ hkey
      · right
        rw [← h1]
    · rw [if_neg hbatch] at h
      injection h with h1 h2 h3 h4 h5
      refine ⟨_, rfl, Or.inl (by rw [← h2]), by rw [← h4, hprevk2],
        by rw [← h3]; simp [hnb], fun hc => absurd hc hnb, by rw [← h1], ?_, ?_⟩
      · intro n' k' hkey
        rw [← h1]
        exact hasKey_storePut _ _ _ _ _ _ _ _ _ hkey
      · left
        rw [← h1]
  · -- oversized: only the rescue skip can yield .next
    rw [hb] at h
    have c1 : ¬ (MDBX_BAD_VALSIZE = MDBX_KEYEXIST ∧ opts.putflags ≠ 0) := by
      rintro ⟨hc, -⟩; revert hc; decide
    rw [if_neg c1] at h
    by_cases hres : opts.rescue = true
    · rw [if_pos ⟨rfl, hres⟩] at h
      injection h with h1 h2 h3 h4 h5
      refine ⟨_, rfl, Or.inl (by rw [← h2]), by rw [← h4, hprevk2],
        by rw [← h3]; simp [hlen], ?_, by rw [← h1, hst], ?_, ?_⟩
      · intro _
        refine ⟨hres, ?_, h5.symm⟩
        rw [← h1, hst, engst_eta]
      · intro n' k' hkey
        rw [← h1, hst]
        exact hkey
      · left
        rw [← h1, hst]
    · rw [if_neg (by rintro ⟨-, hc⟩; exact hres hc)] at h
      rw [if_pos (by decide)] at h
      simp at h
  · -- duplicate: skipped (put flags include no-overwrite bits)
    have hnb : ¬ maxVal < data.length := by
      intro hlen
      have := (storePut_bad_iff maxVal dupsort eng.cur tname key data
          (opts.putflags |||
            (if opts.append = true then
              (if dupsort = true then
                (if prevk = key then MDBX_APPEND ||| MDBX_APPENDDUP else MDBX_APPEND)
              else MDBX_APPEND) else 0))).mpr hlen
      rw [hk] at this
      exact absurd this (by decide)
    rw [hk] at h
    have hpf : opts.putflags ≠ 0 := flags_bits_putflags opts dupsort prevk key hfl
    rw [if_pos ⟨rfl, hpf⟩] at h
    injection h with h1 h2 h3 h4 h5
    refine ⟨_, rfl, Or.inl (by rw [← h2]), by rw [← h4, hprevk2],
      by rw [← h3]; simp [hnb], fun hc => absurd hc hnb, by rw [← h1, hst], ?_, ?_⟩
    · intro n' k' hkey
      rw [← h1, hst]
      exact hkey
    · left
      rw [← h1, hst]

theorem storePut_noover_get (maxVal : Nat) (d : Bool) (s : Store) (n : Option Line)
    (k v : Line) (fl : Nat) (hno : fl &&& MDBX_NOOVERWRITE ≠ 0)
    (n' : Option Line) (k' : Line) (vs : List Line)
    (hsg : storeGet s n' k' = some vs) :
    storeGet (storePut maxVal d s n k v fl).2 n' k' = some vs := by
  unfold storePut
  by_cases hv : v.length > maxVal
  · simpa [hv] using hsg
  · simp only [hv, if_false]
    rcases halo : alookup ((alookup s.tabs n).getD []) k with _ | ws
    · -- the key was absent, so the inserted binding is fresh
      by_cases hn : n = n'
      · subst hn
        by_cases hkk : k = k'
        · subst hkk
          unfold storeGet at hsg
          rw [halo] at hsg
          exact absurd hsg (by simp)
        · unfold storeGet at hsg ⊢
          simpa [alookup_aupdate, hkk, halo] using hsg
      · unfold storeGet at hsg ⊢
        simpa [alookup_aupdate, hn, halo] using hsg
    · simp [halo, hno]
      exact hsg

theorem recStep_keyexist_skip (opts : Opts) (maxVal : Nat) (dupsort : Bool)
    (tname : Option Line) (eng : EngSt) (prevk : Line) (batch : Nat)
    (key data : Line) (hno : opts.noover = true) (hv : data.length ≤ maxVal)
    (hk : hasKey eng.cur tname key = true) :
    recStep opts maxVal dupsort tname eng prevk batch key data =
      .next eng [.cursorPut key data (opts.putflags |||
        (if opts.append = true then
          (if dupsort = true then
            (if prevk = key then MDBX_APPEND ||| MDBX_APPENDDUP else MDBX_APPEND)
          else MDBX_APPEND) else 0))] []
        (if opts.append = true ∧ dupsort = true then
          (if prevk = key then prevk else key) else prevk) batch := by
  have hpf : opts.putflags = MDBX_NOOVERWRITE ||| MDBX_NODUPDATA := by
    simp [Opts.putflags, hno]
  have hbit : (opts.putflags |||
      (if opts.append = true then
        (if dupsort = true then
          (if prevk = key then MDBX_APPEND ||| MDBX_APPENDDUP else MDBX_APPEND)
        else MDBX_APPEND) else 0)) &&& MDBX_NOOVERWRITE ≠ 0 := by
    rw [hpf]
    split_ifs <;> decide
  have hsp := storePut_keyexist maxVal dupsort eng.cur tname key data
      (opts.putflags |||
        (if opts.append = true then
          (if dupsort = true then
            (if prevk = key then MDBX_APPEND ||| MDBX_APPENDDUP else MDBX_APPEND)
          else MDBX_APPEND) else 0)) hbit hv hk
  have hpfne : opts.putflags ≠ 0 := by
    rw [hpf]; decide
  simp [recStep, hsp, hpfne]

/-! ## Properties of the pure record loop -/

/-- The accumulator carried by a `RefOut`. -/
def RefOut.st : RefOut → RefSt
  | .done r => r
  | .abort r _ _ => r

theorem putsOf_append (t1 t2 : List EOp) :
    putsOf (t1 ++ t2) = putsOf t1 ++ putsOf t2 := by
  unfold putsOf
  exact List.filterMap_append _ _ _

/-- When every record is either well-sized or rescue mode is on, the
    record loop processes the whole list: no abort, one put per record in
    input order, and one skip diagnostic per oversized record. -/
theorem refLoad_complete (opts : Opts) (maxVal : Nat) (dupsort : Bool)
    (tname : Option Line) :
    ∀ (recs : List (Line × Line)) (r : RefSt),
      (∀ rec ∈ recs, rec.2.length ≤ maxVal ∨ opts.rescue = true) →
      ∃ rf, refLoad opts maxVal dupsort tname recs r = .done rf ∧
        (putsOf rf.trace).map (fun p => (p.1, p.2.1)) =
          (putsOf r.trace).map (fun p => (p.1, p.2.1)) ++ recs ∧
        rf.diags.count Diag.skipBadValsize =
          r.diags.count Diag.skipBadValsize +
            (recs.filter (fun rec => decide (maxVal < rec.2.length))).length ∧
        (∀ n k, hasKey r.eng.cur n k = true → hasKey rf.eng.cur n k = true) ∧
        (∃ t, rf.trace = r.trace ++ t) := by
  intro recs
  induction recs with
  | nil =>
      intro r _
      exact ⟨r, rfl, by simp, by simp, fun n k hk => hk, ⟨[], by simp⟩⟩
  | cons rec recs ih =>
      intro r hcond
      obtain ⟨key, data⟩ := rec
      simp only [refLoad]
      cases hstep : recStep opts maxVal dupsort tname r.eng r.prevk r.batch key data with
      | fail eng2 ops ds rc =>
          obtain ⟨-, hlen, hres, -, -, -⟩ :=
            recStep_fail_inv opts maxVal dupsort tname r.eng r.prevk r.batch
              key data eng2 ops ds rc hstep
          rcases hcond (key, data) (by simp) with hv | hr
          · simp only at hv
            omega
          · rw [hr] at hres
            exact absurd hres (by simp)
      | next eng2 ops ds prevk2 batch2 =>
          obtain ⟨flags, hflags, hops, hprevk2, hds, hov, hcur, hkeys, hcomm⟩ :=
            recStep_next_inv opts maxVal dupsort tname r.eng r.prevk r.batch
              key data eng2 ops ds prevk2 batch2 hstep
          obtain ⟨rf, hrf, hputs, hcount, hkeys2, ⟨t, ht⟩⟩ :=
            ih ⟨eng2, r.trace ++ ops, r.diags ++ ds, prevk2, batch2⟩
              (fun rec hrec => hcond rec (by simp [hrec]))
          refine ⟨rf, hrf, ?_, ?_, ?_, ?_⟩
          · rw [hputs]
            have hpo : putsOf ops = [(key, data, flags)] := by
              rcases hops with rfl | rfl <;> rfl
            simp [putsOf_append, hpo]
          · rw [hcount]
            have hdc : ds.count Diag.skipBadValsize =
                if maxVal < data.length then 1 else 0 := by
              rw [hds]
              by_cases hc : maxVal < data.length <;> simp [hc]
            simp only [List.count_append, hdc, List.filter_cons]
            by_cases hc : maxVal < data.length <;> simp [hc] <;> omega
          · intro n k hk
            exact hkeys2 n k (hkeys n k hk)
          · exact ⟨ops ++ t, by rw [ht]; simp⟩

/-- Without rescue mode, the first record whose value is oversized aborts
    the section: the records before it are each put, its own put is
    attempted and fails with `MDBX_BAD_VALSIZE` (printing the put-failed
    diagnostic), and the records after it are never attempted. -/
theorem refLoad_abort_at (opts : Opts) (maxVal : Nat) (dupsort : Bool)
    (tname : Option Line) (hres : opts.rescue = false) :
    ∀ (pre : List (Line × Line)) (k v : Line) (post : List (Line × Line)) (r : RefSt),
      (∀ rec ∈ pre, rec.2.length ≤ maxVal) →
      maxVal < v.length →
      ∃ rf, refLoad opts maxVal dupsort tname (pre ++ (k, v) :: post) r =
          .abort rf MDBX_BAD_VALSIZE post ∧
        (putsOf rf.trace).length = (putsOf r.trace).length + pre.length + 1 ∧
        Diag.putFailed MDBX_BAD_VALSIZE ∈ rf.diags := by
  intro pre
  induction pre with
  | nil =>
      intro k v post r _ hv
      simp only [List.nil_append, refLoad]
      cases hstep : recStep opts maxVal dupsort tname r.eng r.prevk r.batch k v with
      | next eng2 ops ds prevk2 batch2 =>
          obtain ⟨-, -, -, -, -, hov, -, -, -⟩ :=
            recStep_next_inv opts maxVal dupsort tname r.eng r.prevk r.batch
              k v eng2 ops ds prevk2 batch2 hstep
          obtain ⟨hr, -, -⟩ := hov hv
          rw [hres] at hr
          exact absurd hr (by simp)
      | fail eng2 ops ds rc =>
          obtain ⟨hrc, -, -, hds, ⟨flags, hopseq⟩, -⟩ :=
            recStep_fail_inv opts maxVal dupsort tname r.eng r.prevk r.batch
              k v eng2 ops ds rc hstep
          subst hrc
          refine ⟨_, rfl, ?_, ?_⟩
          · simp [putsOf_append, hopseq, putsOf]
          · simp [hds]
  | cons p pre ih =>
      intro k v post r hpre hv
      obtain ⟨pk, pv⟩ := p
      simp only [List.cons_append, refLoad]
      cases hstep : recStep opts maxVal dupsort tname r.eng r.prevk r.batch pk pv with
      | fail eng2 ops ds rc =>
          obtain ⟨-, hlen, -, -, -, -⟩ :=
            recStep_fail_inv opts maxVal dupsort tname r.eng r.prevk r.batch
              pk pv eng2 ops ds rc hstep
          have := hpre (pk, pv) (by simp)
          simp only at this
          omega
      | next eng2 ops ds prevk2 batch2 =>
          obtain ⟨flags, -, hops, -, -, -, -, -, -⟩ :=
            recStep_next_inv opts maxVal dupsort tname r.eng r.prevk r.batch
              pk pv eng2 ops ds prevk2 batch2 hstep
          obtain ⟨rf, hrf, hlen2, hmem⟩ :=
            ih k v post ⟨eng2, r.trace ++ ops, r.diags ++ ds, prevk2, batch2⟩
              (fun rec hrec => hpre rec (by simp [hrec])) hv
          refine ⟨rf, hrf, ?_, hmem⟩
          rw [hlen2]
          have hpo : putsOf ops = [(pk, pv, flags)] := by
            rcases hops with rfl | rfl <;> rfl
          simp [putsOf_append, hpo]
          omega

/-- The per-record append flags of a dupsort append-mode section, as a
    chain against the previous key: `MDBX_APPENDDUP` is added exactly when
    the key equals the previous one, where the chain starts from the
    (initially empty) previous-key buffer. -/
def appChain (prevk : Line) : List (Line × Line) → List (Line × Line × Nat)
  | [] => []
  | (k, v) :: recs =>
      (k, v, if prevk = k then MDBX_APPEND ||| MDBX_APPENDDUP else MDBX_APPEND) ::
        appChain k recs

/-- In append mode on a dupsort table, the record loop's puts carry
    exactly the `appChain` flags (or-ed onto `putflags`). -/
theorem refLoad_append_dupsort (opts : Opts) (maxVal : Nat) (tname : Option Line)
    (ha : opts.append = true) :
    ∀ (recs : List (Line × Line)) (r : RefSt),
      (∀ rec ∈ recs, rec.2.length ≤ maxVal ∨ opts.rescue = true) →
      ∃ rf, refLoad opts maxVal true tname recs r = .done rf ∧
        putsOf rf.trace = putsOf r.trace ++
          (appChain r.prevk recs).map (fun p => (p.1, p.2.1, opts.putflags ||| p.2.2)) := by
  intro recs
  induction recs with
  | nil => intro r _; exact ⟨r, rfl, by simp [appChain]⟩
  | cons rec recs ih =>
      intro r hcond
      obtain ⟨key, data⟩ := rec
      simp only [refLoad]
      cases hstep : recStep opts maxVal true tname r.eng r.prevk r.batch key data with
      | fail eng2 ops ds rc =>
          obtain ⟨-, hlen, hres, -, -, -⟩ :=
            recStep_fail_inv opts maxVal true tname r.eng r.prevk r.batch
              key data eng2 ops ds rc hstep
          rcases hcond (key, data) (by simp) with hv | hr
          · simp only at hv
            omega
          · rw [hr] at hres
            exact absurd hres (by simp)
      | next eng2 ops ds prevk2 batch2 =>
          obtain ⟨flags, hflags, hops, hprevk2, -, -, -, -, -⟩ :=
            recStep_next_inv opts maxVal true tname r.eng r.prevk r.batch
              key data eng2 ops ds prevk2 batch2 hstep
          obtain ⟨rf, hrf, hputs⟩ :=
            ih ⟨eng2, r.trace ++ ops, r.diags ++ ds, prevk2, batch2⟩
              (fun rec hrec => hcond rec (by simp [hrec]))
          refine ⟨rf, hrf, ?_⟩
          rw [hputs]
          have hpo : putsOf ops = [(key, data, flags)] := by
            rcases hops with rfl | rfl <;> rfl
          have hp2 : prevk2 = key := by simp [hprevk2, ha]
          simp only [putsOf_append, hpo, hp2, appChain, List.map_cons, List.append_assoc,
            List.cons_append, List.nil_append, hflags, ha, if_true]

/-- In append mode on a non-dupsort table, every put carries exactly
    `putflags ||| MDBX_APPEND`. -/
theorem refLoad_append_flat (opts : Opts) (maxVal : Nat) (tname : Option Line)
    (ha : opts.append = true) :
    ∀ (recs : List (Line × Line)) (r : RefSt),
      (∀ rec ∈ recs, rec.2.length ≤ maxVal ∨ opts.rescue = true) →
      ∃ rf, refLoad opts maxVal false tname recs r = .done rf ∧
        putsOf rf.trace = putsOf r.trace ++
          recs.map (fun rec => (rec.1, rec.2, opts.putflags ||| MDBX_APPEND)) := by
  intro recs
  induction recs with
  | nil => intro r _; exact ⟨r, rfl, by simp⟩
  | cons rec recs ih =>
      intro r hcond
      obtain ⟨key, data⟩ := rec
      simp only [refLoad]
      cases hstep : recStep opts maxVal false tname r.eng r.prevk r.batch key data with
      | fail eng2 ops ds rc =>
          obtain ⟨-, hlen, hres, -, -, -⟩ :=
            recStep_fail_inv opts maxVal false tname r.eng r.prevk r.batch
              key data eng2 ops ds rc hstep
          rcases hcond (key, data) (by simp) with hv | hr
          · simp only at hv
            omega
          · rw [hr] at hres
            exact absurd hres (by simp)
      | next eng2 ops ds prevk2 batch2 =>
          obtain ⟨flags, hflags, hops, hprevk2, -, -, -, -, -⟩ :=
            recStep_next_inv opts maxVal false tname r.eng r.prevk r.batch
              key data eng2 ops ds prevk2 batch2 hstep
          obtain ⟨rf, hrf, hputs⟩ :=
            ih ⟨eng2, r.trace ++ ops, r.diags ++ ds, prevk2, batch2⟩
              (fun rec hrec => hcond rec (by simp [hrec]))
          refine ⟨rf, hrf, ?_⟩
          rw [hputs]
          have hpo : putsOf ops = [(key, data, flags)] := by
            rcases hops with rfl | rfl <;> rfl
          simp only [putsOf_append, hpo, List.map_cons, List.append_assoc,
            List.cons_append, List.nil_append, hflags, ha, if_true,
            Bool.false_eq_true, if_false]

/-- With `-N` every record's put keeps every pre-existing binding: a key
    already present keeps its value list unchanged through the whole
    section. -/
theorem refLoad_noover (opts : Opts) (maxVal : Nat) (dupsort : Bool)
    (tname : Option Line) (hno : opts.noover = true) :
    ∀ (recs : List (Line × Line)) (r : RefSt),
      (∀ rec ∈ recs, rec.2.length ≤ maxVal) →
      ∃ rf, refLoad opts maxVal dupsort tname recs r = .done rf ∧
        (∀ n k vs, storeGet r.eng.cur n k = some vs →
          storeGet rf.eng.cur n k = some vs) := by
  intro recs
  induction recs with
  | nil => intro r _; exact ⟨r, rfl, fun n k vs h => h⟩
  | cons rec recs ih =>
      intro r hcond
      obtain ⟨key, data⟩ := rec
      simp only [refLoad]
      cases hstep : recStep opts maxVal dupsort tname r.eng r.prevk r.batch key data with
      | fail eng2 ops ds rc =>
          obtain ⟨-, hlen, -, -, -, -⟩ :=
            recStep_fail_inv opts maxVal dupsort tname r.eng r.prevk r.batch
              key data eng2 ops ds rc hstep
          have := hcond (key, data) (by simp)
          simp only at this
          omega
      | next eng2 ops ds prevk2 batch2 =>
          obtain ⟨flags, hflags, -, -, -, -, hcur, -, -⟩ :=
            recStep_next_inv opts maxVal dupsort tname r.eng r.prevk r.batch
              key data eng2 ops ds prevk2 batch2 hstep
          obtain ⟨rf, hrf, hget⟩ :=
            ih ⟨eng2, r.trace ++ ops, r.diags ++ ds, prevk2, batch2⟩
              (fun rec hrec => hcond rec (by simp [hrec]))
          refine ⟨rf, hrf, ?_⟩
          intro n k vs hsg
          refine hget n k vs ?_
          show storeGet eng2.cur n k = some vs
          rw [hcur, hflags]
          refine storePut_noover_get _ _ _ _ _ _ _ ?_ _ _ _ hsg
          have hpf : opts.putflags = MDBX_NOOVERWRITE ||| MDBX_NODUPDATA := by
            simp [Opts.putflags, hno]
          rw [hpf]
          split_ifs <;> decide

/-- With `-N`, a record whose key is already present is skipped and the
    very next engine call after its put is the next record's put: no
    commit, begin or abort intervenes. -/
theorem refLoad_keyexist_adjacent (opts : Opts) (maxVal : Nat) (dupsort : Bool)
    (tname : Option Line) (hno : opts.noover = true) :
    ∀ (pre : List (Line × Line)) (k v k2 v2 : Line) (post : List (Line × Line))
      (r : RefSt),
      (∀ rec ∈ pre ++ (k, v) :: (k2, v2) :: post, rec.2.length ≤ maxVal) →
      hasKey r.eng.cur tname k = true →
      ∃ rf, refLoad opts maxVal dupsort tname (pre ++ (k, v) :: (k2, v2) :: post) r =
          .done rf ∧
        ∃ t1 t2 f1 f2,
          rf.trace = t1 ++ EOp.cursorPut k v f1 :: EOp.cursorPut k2 v2 f2 :: t2 := by
  intro pre
  induction pre with
  | nil =>
      intro k v k2 v2 post r hvals hk
      simp only [List.nil_append, refLoad]
      rw [recStep_keyexist_skip opts maxVal dupsort tname r.eng r.prevk r.batch k v hno
        (by have := hvals (k, v) (by simp); simpa using this) hk]
      simp only [refLoad]
      cases hstep : recStep opts maxVal dupsort tname r.eng
          (if opts.append = true ∧ dupsort = true then
            (if r.prevk = k then r.prevk else k) else r.prevk) r.batch k2 v2 with
      | fail eng2 ops ds rc =>
          obtain ⟨-, hlen, -, -, -, -⟩ :=
            recStep_fail_inv opts maxVal dupsort tname _ _ _ k2 v2 eng2 ops ds rc hstep
          have := hvals (k2, v2) (by simp)
          simp only at this
          omega
      | next eng2 ops ds prevk2 batch2 =>
          obtain ⟨flags, -, hops, -, -, -, -, -, -⟩ :=
            recStep_next_inv opts maxVal dupsort tname _ _ _ k2 v2 eng2 ops ds
              prevk2 batch2 hstep
          obtain ⟨rf, hrf, -, -, -, ⟨t, ht⟩⟩ :=
            refLoad_complete opts maxVal dupsort tname post
              ⟨eng2, (r.trace ++ [EOp.cursorPut k v _]) ++ ops,
                (r.diags ++ []) ++ ds, prevk2, batch2⟩
              (fun rec hrec => Or.inl (hvals rec (by simp [hrec])))
          refine ⟨rf, hrf, r.trace, ?_⟩
          rcases hops with rfl | rfl
          · exact ⟨t,
              opts.putflags |||
                (if opts.append = true then
                  (if dupsort = true then
                    (if r.prevk = k then MDBX_APPEND ||| MDBX_APPENDDUP else MDBX_APPEND)
                  else MDBX_APPEND) else 0),
              flags, by simp [ht]⟩
          · exact ⟨[EOp.txnCommit, EOp.txnBegin, EOp.cursorOpen] ++ t,
              opts.putflags |||
                (if opts.append = true then
                  (if dupsort = true then
                    (if r.prevk = k then MDBX_APPEND ||| MDBX_APPENDDUP else MDBX_APPEND)
                  else MDBX_APPEND) else 0),
              flags, by simp [ht]⟩
  | cons p pre ih =>
      intro k v k2 v2 post r hvals hk
      obtain ⟨pk, pv⟩ := p
      simp only [List.cons_append, refLoad]
      cases hstep : recStep opts maxVal dupsort tname r.eng r.prevk r.batch pk pv with
      | fail eng2 ops ds rc =>
          obtain ⟨-, hlen, -, -, -, -⟩ :=
            recStep_fail_inv opts maxVal dupsort tname r.eng r.prevk r.batch
              pk pv eng2 ops ds rc hstep
          have := hvals (pk, pv) (by simp)
          simp only at this
          omega
      | next eng2 ops ds prevk2 batch2 =>
          obtain ⟨flags, -, -, -, -, -, -, hkeys, -⟩ :=
            recStep_next_inv opts maxVal dupsort tname r.eng r.prevk r.batch
              pk pv eng2 ops ds prevk2 batch2 hstep
          exact ih k v k2 v2 post ⟨eng2, r.trace ++ ops, r.diags ++ ds, prevk2, batch2⟩
            (fun rec hrec => hvals rec (by simp [hrec])) (hkeys tname k hk)

/-! ## Evaluating `mainRun` on a single encoded section -/

theorem encodeRecs_length (recs : List (Line × Line)) :
    (encodeRecs recs).length = 2 * recs.length := by
  induction recs with
  | nil => rfl
  | cons rec recs ih =>
      obtain ⟨k, v⟩ := rec
      rw [encodeRecs_cons]
      simp [ih]
      ring

theorem readhdrGo_headerEnd (rest : List Line) (st : HdrState) (ds : List Diag) :
    readhdrGo (bytes "HEADER=END" :: rest) st ds = .done st ds rest := rfl

/-- One iteration of the section loop over an encoded data section:
    begin, open table and cursor, run the pure record loop, and either
    abort or commit and move to the next header. -/
theorem loadSections_encoded (opts : Opts) (maxVal : Nat)
    (recs : List (Line × Line)) (rest2 : List Line) (fuel : Nat) (st : LoadSt)
    (rc : Int) (hmode : st.hdr.mode = 0) (heof : st.eofFlag = false)
    (hin : st.input = encodeRecs recs ++ dataEndLine :: rest2)
    (hbytes : ∀ r ∈ recs, (∀ b ∈ r.1, b < 256) ∧ (∀ b ∈ r.2, b < 256)) :
    loadSections opts maxVal (fuel + 1) st rc =
      (match refLoad opts maxVal (decide (st.hdr.dbiFlags &&& MDBX_DUPSORT ≠ 0))
          st.hdr.subname recs
          ⟨⟨st.eng.committed, st.eng.committed, true⟩,
            st.trace ++ [.txnBegin,
              .dbiOpen st.hdr.subname (st.hdr.dbiFlags ||| MDBX_CREATE) opts.append,
              .cursorOpen],
            st.diags, [], 0⟩ with
       | .done rf =>
           (match readhdr rest2 { st.hdr with subname := none } with
            | .exited ds => .exited
                { input := rest2
                  hdr := { st.hdr with subname := none }
                  eng := ⟨rf.eng.cur, rf.eng.cur, false⟩
                  trace := rf.trace ++ [.txnCommit, .dbiClose]
                  diags := rf.diags ++ ds
                  eofFlag := st.eofFlag }
            | .done h2 ds rest3 => loadSections opts maxVal fuel
                { input := rest3
                  hdr := h2
                  eng := ⟨rf.eng.cur, rf.eng.cur, false⟩
                  trace := rf.trace ++ [.txnCommit, .dbiClose]
                  diags := rf.diags ++ ds
                  eofFlag := st.eofFlag } 0
            | .eof h2 ds => loadSections opts maxVal fuel
                { input := []
                  hdr := h2
                  eng := ⟨rf.eng.cur, rf.eng.cur, false⟩
                  trace := rf.trace ++ [.txnCommit, .dbiClose]
                  diags := rf.diags ++ ds
                  eofFlag := true } 0)
       | .abort rf rc2 rem => .ret
           { input := encodeRecs rem ++ dataEndLine :: rest2
             hdr := st.hdr
             eng := ⟨rf.eng.committed, rf.eng.committed, false⟩
             trace := rf.trace ++ [.txnAbort]
             diags := rf.diags
             eofFlag := st.eofFlag } rc2) := by
  simp only [loadSections, heof, Bool.false_eq_true, if_false]
  rw [hin]
  have hfuel : recs.length < (encodeRecs recs ++ dataEndLine :: rest2).length + 1 := by
    simp [encodeRecs_length]
    omega
  have hrec := loadRecords_encoded opts maxVal
      (decide (st.hdr.dbiFlags &&& MDBX_DUPSORT ≠ 0)) st.hdr.subname recs
      ((encodeRecs recs ++ dataEndLine :: rest2).length + 1)
      { input := encodeRecs recs ++ dataEndLine :: rest2
        hdr := st.hdr
        eng := { committed := st.eng.committed, cur := st.eng.committed, inTxn := true }
        trace := st.trace ++ [.txnBegin,
          .dbiOpen st.hdr.subname (st.hdr.dbiFlags ||| MDBX_CREATE) opts.append,
          .cursorOpen]
        diags := st.diags
        eofFlag := false } [] 0 rest2 hfuel hmode rfl hbytes
  rw [hrec]
  cases href : refLoad opts maxVal (decide (st.hdr.dbiFlags &&& MDBX_DUPSORT ≠ 0))
      st.hdr.subname recs
      ⟨⟨st.eng.committed, st.eng.committed, true⟩,
        st.trace ++ [.txnBegin,
          .dbiOpen st.hdr.subname (st.hdr.dbiFlags ||| MDBX_CREATE) opts.append,
          .cursorOpen],
        st.diags, [], 0⟩ with
  | done rf =>
      simp only [hmode, Nat.zero_and]
      rfl
  | abort rf rc2 rem =>
      rfl

/-- A run on a dump with a trivial header and one data section is the
    environment setup, one transaction around the pure record loop, and
    the final cleanup. -/
theorem mainRun_single_section (opts : Opts) (maxVal : Nat) (init : Store)
    (recs : List (Line × Line))
    (hpt : opts.plaintext = false) (hmax : maxVal < INTPTR_MAX / 4)
    (hbytes : ∀ r ∈ recs, (∀ b ∈ r.1, b < 256) ∧ (∀ b ∈ r.2, b < 256)) :
    mainRun opts maxVal init (bytes "HEADER=END" :: encodeRecs recs ++ [dataEndLine]) =
      (match refLoad opts maxVal false opts.subname recs
          ⟨⟨init, init, true⟩,
            [.envCreate, .envSetMaxdbs 2, .envOpen, .envGetMaxvalsize, .txnBegin,
              .dbiOpen opts.subname MDBX_CREATE opts.append, .cursorOpen],
            [], [], 0⟩ with
       | .done rf =>
           { trace := rf.trace ++ [.txnCommit, .dbiClose, .envClose]
             diags := rf.diags
             exitOk := true
             store := rf.eng.cur }
       | .abort rf rc rem =>
           { trace := rf.trace ++ [.txnAbort, .envClose]
             diags := rf.diags
             exitOk := rc == 0
             store := rf.eng.committed }) := by
  have hmode0 : (if opts.plaintext = true then NOHDR ||| PRINT else 0) = 0 := by
    rw [hpt]
    rfl
  unfold mainRun
  simp only [List.cons_append, hmode0, readhdr, Nat.zero_and, readhdrGo_headerEnd,
    eq_self_iff_true, if_true, Bool.false_eq_true, if_false, ne_eq, not_true,
    false_and, List.nil_append, not_false_eq_true]
  rw [if_neg (by omega : ¬ maxVal ≥ INTPTR_MAX / 4)]
  have hload := loadSections_encoded opts maxVal recs []
      ((encodeRecs recs ++ [dataEndLine]).length + 1)
      { input := encodeRecs recs ++ [dataEndLine]
        hdr := { dbiFlags := 0, version := 0, subname := opts.subname, pagesize := 0,
                 maxreaders := 0, mapsize := 0, mode := 0 }
        eng := { committed := init, cur := init, inTxn := false }
        trace := [EOp.envCreate, EOp.envSetMaxdbs 2, EOp.envOpen, EOp.envGetMaxvalsize]
        diags := []
        eofFlag := false } 0 rfl rfl rfl hbytes
  rw [show (decide (((0:Nat) &&& MDBX_DUPSORT) ≠ 0)) = false from rfl,
    Nat.zero_or] at hload
  simp only [List.cons_append, List.nil_append] at hload
  rw [show (encodeRecs recs ++ [dataEndLine]).length + 2
      = (encodeRecs recs ++ [dataEndLine]).length + 1 + 1 from rfl, hload]
  cases href : refLoad opts maxVal false opts.subname recs
      ⟨⟨init, init, true⟩,
        [.envCreate, .envSetMaxdbs 2, .envOpen, .envGetMaxvalsize, .txnBegin,
          .dbiOpen opts.subname MDBX_CREATE opts.append, .cursorOpen],
        [], [], 0⟩ with
  | done rf =>
      simp only [readhdr, readhdrGo, loadSections, eq_self_iff_true, if_true,
        List.append_nil, List.append_assoc]
      rfl
  | abort rf rc2 rem =>
      simp only [List.append_assoc]
      rfl

/-! ## Trace shape of the record loop -/

theorem dbiOpensOf_append (t1 t2 : List EOp) :
    dbiOpensOf (t1 ++ t2) = dbiOpensOf t1 ++ dbiOpensOf t2 := by
  unfold dbiOpensOf
  exact List.filterMap_append _ _ _

/-- In a completed record loop, every engine call beyond the section's
    initial trace is a cursor put carrying `putflags` or-ed with an append
    flag, or part of a batch commit-and-reopen; in particular no abort, no
    table open, and no get or delete is ever added. -/
theorem refLoad_done_ops (opts : Opts) (maxVal : Nat) (dupsort : Bool)
    (tname : Option Line) :
    ∀ (recs : List (Line × Line)) (r rf : RefSt),
      refLoad opts maxVal dupsort tname recs r = .done rf →
      ∀ op ∈ rf.trace, op ∈ r.trace ∨
        (∃ k v ap, (ap = 0 ∨ ap = MDBX_APPEND ∨ ap = MDBX_APPEND ||| MDBX_APPENDDUP) ∧
          op = EOp.cursorPut k v (opts.putflags ||| ap)) ∨
        op = EOp.txnCommit ∨ op = EOp.txnBegin ∨ op = EOp.cursorOpen := by
  intro recs
  induction recs with
  | nil =>
      intro r rf h op hop
      simp only [refLoad] at h
      injection h with h1
      rw [← h1] at hop
      exact Or.inl hop
  | cons rec recs ih =>
      intro r rf h op hop
      obtain ⟨key, data⟩ := rec
      simp only [refLoad] at h
      cases hstep : recStep opts maxVal dupsort tname r.eng r.prevk r.batch key data with
      | fail eng2 ops ds rc =>
          rw [hstep] at h
          exact absurd h (by simp)
      | next eng2 ops ds prevk2 batch2 =>
          rw [hstep] at h
          obtain ⟨flags, hflags, hops, -, -, -, -, -, -⟩ :=
            recStep_next_inv opts maxVal dupsort tname r.eng r.prevk r.batch
              key data eng2 ops ds prevk2 batch2 hstep
          rcases ih { eng := eng2
                      trace := r.trace ++ ops
                      diags := r.diags ++ ds
                      prevk := prevk2
                      batch := batch2 } rf h op hop with hin | hrest
          · have hin2 : op ∈ r.trace ++ ops := hin
            rcases List.mem_append.mp hin2 with h1 | h2
            · exact Or.inl h1
            · refine Or.inr ?_
              have hop4 : op = EOp.cursorPut key data flags ∨
                  op = EOp.txnCommit ∨ op = EOp.txnBegin ∨ op = EOp.cursorOpen := by
                rcases hops with rfl | rfl
                · simp only [List.mem_singleton] at h2
                  exact Or.inl h2
                · simp only [List.mem_cons, List.not_mem_nil, or_false] at h2
                  exact h2
              rcases hop4 with rfl | rfl | rfl | rfl
              · exact Or.inl ⟨key, data,
                  (if opts.append = true then
                    (if dupsort = true then
                      (if r.prevk = key then MDBX_APPEND ||| MDBX_APPENDDUP
                       else MDBX_APPEND)
                    else MDBX_APPEND) else 0),
                  by split_ifs <;> simp,
                  by rw [hflags]⟩
              · exact Or.inr (Or.inl rfl)
              · exact Or.inr (Or.inr (Or.inl rfl))
              · exact Or.inr (Or.inr (Or.inr rfl))
          · exact Or.inr hrest

/-- The record loop opens no table: its result's trace has exactly the
    table opens it started with. -/
theorem refLoad_dbiOpens (opts : Opts) (maxVal : Nat) (dupsort : Bool)
    (tname : Option Line) :
    ∀ (recs : List (Line × Line)) (r : RefSt),
      dbiOpensOf (refLoad opts maxVal dupsort tname recs r).st.trace =
        dbiOpensOf r.trace := by
  intro recs
  induction recs with
  | nil => intro r; rfl
  | cons rec recs ih =>
      intro r
      obtain ⟨key, data⟩ := rec
      simp only [refLoad]
      cases hstep : recStep opts maxVal dupsort tname r.eng r.prevk r.batch key data with
      | next eng2 ops ds prevk2 batch2 =>
          obtain ⟨flags, -, hops, -, -, -, -, -, -⟩ :=
            recStep_next_inv opts maxVal dupsort tname r.eng r.prevk r.batch
              key data eng2 ops ds prevk2 batch2 hstep
          rw [ih]
          show dbiOpensOf (r.trace ++ ops) = dbiOpensOf r.trace
          have hdo : dbiOpensOf ops = [] := by
            rcases hops with rfl | rfl <;> rfl
          rw [dbiOpensOf_append, hdo, List.append_nil]
      | fail eng2 ops ds rc =>
          obtain ⟨-, -, -, -, ⟨flags, hopseq⟩, -⟩ :=
            recStep_fail_inv opts maxVal dupsort tname r.eng r.prevk r.batch
              key data eng2 ops ds rc hstep
          show dbiOpensOf (r.trace ++ ops) = dbiOpensOf r.trace
          rw [hopseq, dbiOpensOf_append,
            show dbiOpensOf [EOp.cursorPut key data flags] = [] from rfl,
            List.append_nil]

/-! ## Claim C1: rescue mode and MDBX_BAD_VALSIZE -/

/-- C1: In rescue mode (`-r`), every record whose put fails with
    `MDBX_BAD_VALSIZE` (an oversized value) gets a skip diagnostic and the
    load continues — the run exits successfully, never aborts a
    transaction, puts every record of the dump in order, and prints
    exactly one skip diagnostic per oversized record.  Without rescue
    mode, the first oversized value terminates the load: the exit status
    is a failure, the transaction is aborted, only the records up to and
    including the failing one are ever attempted, and the put-failed
    diagnostic names `MDBX_BAD_VALSIZE`. -/
theorem rescue_skips_bad_valsize (opts : Opts) (maxVal : Nat) (init : Store)
    (recs pre post : List (Line × Line)) (k v : Line)
    (hpt : opts.plaintext = false) (hmax : maxVal < INTPTR_MAX / 4)
    (hbytesA : ∀ r ∈ recs, (∀ b ∈ r.1, b < 256) ∧ (∀ b ∈ r.2, b < 256))
    (hbytesB : ∀ r ∈ pre ++ (k, v) :: post, (∀ b ∈ r.1, b < 256) ∧ (∀ b ∈ r.2, b < 256))
    (hpre : ∀ rec ∈ pre, rec.2.length ≤ maxVal) (hbad : maxVal < v.length) :
    (opts.rescue = true →
      (mainRun opts maxVal init
        (bytes "HEADER=END" :: encodeRecs recs ++ [dataEndLine])).exitOk = true ∧
      EOp.txnAbort ∉ (mainRun opts maxVal init
        (bytes "HEADER=END" :: encodeRecs recs ++ [dataEndLine])).trace ∧
      (putsOf (mainRun opts maxVal init
        (bytes "HEADER=END" :: encodeRecs recs ++ [dataEndLine])).trace).map
          (fun p => (p.1, p.2.1)) = recs ∧
      (mainRun opts maxVal init
        (bytes "HEADER=END" :: encodeRecs recs ++ [dataEndLine])).diags.count
          Diag.skipBadValsize =
        (recs.filter (fun rec => decide (maxVal < rec.2.length))).length) ∧
    (opts.rescue = false →
      (mainRun opts maxVal init
        (bytes "HEADER=END" :: encodeRecs (pre ++ (k, v) :: post) ++ [dataEndLine])).exitOk
          = false ∧
      EOp.txnAbort ∈ (mainRun opts maxVal init
        (bytes "HEADER=END" :: encodeRecs (pre ++ (k, v) :: post) ++ [dataEndLine])).trace ∧
      (putsOf (mainRun opts maxVal init
        (bytes "HEADER=END" :: encodeRecs (pre ++ (k, v) :: post) ++ [dataEndLine])).trace).length
          = pre.length + 1 ∧
      Diag.putFailed MDBX_BAD_VALSIZE ∈ (mainRun opts maxVal init
        (bytes "HEADER=END" :: encodeRecs (pre ++ (k, v) :: post) ++ [dataEndLine])).diags) := by
  constructor
  · intro hres
    have hmain := mainRun_single_section opts maxVal init recs hpt hmax hbytesA
    obtain ⟨rf, hrf, hputs, hcount, -, -⟩ :=
      refLoad_complete opts maxVal false opts.subname recs
        { eng := { committed := init, cur := init, inTxn := true }
          trace := [.envCreate, .envSetMaxdbs 2, .envOpen, .envGetMaxvalsize, .txnBegin,
            .dbiOpen opts.subname MDBX_CREATE opts.append, .cursorOpen]
          diags := []
          prevk := []
          batch := 0 }
        (fun rec _ => Or.inr hres)
    rw [hmain, hrf]
    refine ⟨rfl, ?_, ?_, ?_⟩
    · intro hmem
      rcases List.mem_append.mp hmem with hmem | hmem
      · rcases refLoad_done_ops opts maxVal false opts.subname recs _ rf hrf _ hmem with
          hin | ⟨k', v', ap, -, heq⟩ | heq | heq | heq
        · revert hin
          simp
        · exact EOp.noConfusion heq
        · exact EOp.noConfusion heq
        · exact EOp.noConfusion heq
        · exact EOp.noConfusion heq
      · revert hmem
        simp
    · show (putsOf (rf.trace ++ [EOp.txnCommit, EOp.dbiClose, EOp.envClose])).map
        (fun p => (p.1, p.2.1)) = recs
      rw [putsOf_append,
        show putsOf [EOp.txnCommit, EOp.dbiClose, EOp.envClose] = [] from rfl,
        List.append_nil, hputs]
      simp only [show putsOf [EOp.envCreate, EOp.envSetMaxdbs 2, EOp.envOpen,
        EOp.envGetMaxvalsize, EOp.txnBegin,
        EOp.dbiOpen opts.subname MDBX_CREATE opts.append, EOp.cursorOpen] = [] from rfl,
        List.map_nil, List.nil_append]
    · show rf.diags.count Diag.skipBadValsize =
        (recs.filter (fun rec => decide (maxVal < rec.2.length))).length
      rw [hcount]
      simp
  · intro hres
    have hmain := mainRun_single_section opts maxVal init (pre ++ (k, v) :: post)
      hpt hmax hbytesB
    obtain ⟨rf, hrf, hlen, hmem⟩ :=
      refLoad_abort_at opts maxVal false opts.subname hres pre k v post
        { eng := { committed := init, cur := init, inTxn := true }
          trace := [.envCreate, .envSetMaxdbs 2, .envOpen, .envGetMaxvalsize, .txnBegin,
            .dbiOpen opts.subname MDBX_CREATE opts.append, .cursorOpen]
          diags := []
          prevk := []
          batch := 0 }
        hpre hbad
    rw [hmain, hrf]
    refine ⟨?_, ?_, ?_, hmem⟩
    · show ((MDBX_BAD_VALSIZE : Int) == 0) = false
      decide
    · show EOp.txnAbort ∈ rf.trace ++ [EOp.txnAbort, EOp.envClose]
      simp
    · show (putsOf (rf.trace ++ [EOp.txnAbort, EOp.envClose])).length = pre.length + 1
      rw [putsOf_append,
        show putsOf [EOp.txnAbort, EOp.envClose] = [] from rfl,
        List.append_nil, hlen]
      simp only [show putsOf [EOp.envCreate, EOp.envSetMaxdbs 2, EOp.envOpen,
        EOp.envGetMaxvalsize, EOp.txnBegin,
        EOp.dbiOpen opts.subname MDBX_CREATE opts.append, EOp.cursorOpen] = [] from rfl,
        List.length_nil]
      omega

/-- Options for the C1 witness: rescue mode, nothing else. -/
def c1opts : Opts :=
  { append := false, noover := false, rescue := true, plaintext := false,
    subname := none }

/-- Records for the C1 witness: value sizes 1 and 2 against a maximum of 1. -/
def c1recs : List (Line × Line) := [([48], [49]), ([50], [51, 52])]

/-- The C1 witness dump: a trivial header and the two encoded records. -/
def c1input : List Line := bytes "HEADER=END" :: encodeRecs c1recs ++ [dataEndLine]

/-- Witness for C1: maximum value size 1, records `("0","1")` and
    `("2","34")`, the second oversized. -/
theorem rescue_skips_bad_valsize_witness :
    (c1opts.rescue = true →
      (mainRun c1opts 1 ⟨[]⟩ c1input).exitOk = true ∧
      EOp.txnAbort ∉ (mainRun c1opts 1 ⟨[]⟩ c1input).trace ∧
      (putsOf (mainRun c1opts 1 ⟨[]⟩ c1input).trace).map (fun p => (p.1, p.2.1)) =
        c1recs ∧
      (mainRun c1opts 1 ⟨[]⟩ c1input).diags.count Diag.skipBadValsize =
        (c1recs.filter (fun rec => decide (1 < rec.2.length))).length) ∧
    (c1opts.rescue = false →
      (mainRun c1opts 1 ⟨[]⟩ c1input).exitOk = false ∧
      EOp.txnAbort ∈ (mainRun c1opts 1 ⟨[]⟩ c1input).trace ∧
      (putsOf (mainRun c1opts 1 ⟨[]⟩ c1input).trace).length =
        ([([48], [49])] : List (Line × Line)).length + 1 ∧
      Diag.putFailed MDBX_BAD_VALSIZE ∈ (mainRun c1opts 1 ⟨[]⟩ c1input).diags) :=
  rescue_skips_bad_valsize c1opts 1 ⟨[]⟩ c1recs [([48], [49])] [] [50] [51, 52]
    (by decide) (by decide) (by decide) (by decide) (by decide) (by decide)

/-- Every put of a completed record loop that started with a put-free
    trace carries exactly `putflags` or-ed with an append flag. -/
theorem refLoad_put_flag_bits (opts : Opts) (maxVal : Nat) (dupsort : Bool)
    (tname : Option Line) (recs : List (Line × Line)) (r rf : RefSt)
    (h : refLoad opts maxVal dupsort tname recs r = .done rf)
    (hinit : putsOf r.trace = []) :
    ∀ p ∈ putsOf rf.trace, ∃ ap,
      (ap = 0 ∨ ap = MDBX_APPEND ∨ ap = MDBX_APPEND ||| MDBX_APPENDDUP) ∧
      p.2.2 = opts.putflags ||| ap := by
  intro p hp
  unfold putsOf at hp
  rcases List.mem_filterMap.mp hp with ⟨op, hmem, hpf⟩
  rcases refLoad_done_ops opts maxVal dupsort tname recs r rf h op hmem with
    hin | ⟨k', v', ap, hap, rfl⟩ | rfl | rfl | rfl
  · have hsp : p ∈ putsOf r.trace := by
      unfold putsOf
      exact List.mem_filterMap.mpr ⟨op, hin, hpf⟩
    rw [hinit] at hsp
    cases hsp
  · refine ⟨ap, hap, ?_⟩
    injection hpf with hpf
    rw [← hpf]
  · exact Option.noConfusion hpf
  · exact Option.noConfusion hpf
  · exact Option.noConfusion hpf

/-! ## Claim C3: `-N` puts and MDBX_KEYEXIST skips -/

/-- C3: With `-N`, every cursor put carries both `MDBX_NOOVERWRITE` and
    `MDBX_NODUPDATA`; a put failing with `MDBX_KEYEXIST` (here: the key
    `k` already present in the table) is skipped — the run completes
    successfully, the very next engine call after that record's put is the
    next record's put (same transaction, no commit/begin/abort between),
    and every pre-existing binding keeps its value list. -/
theorem noover_keyexist_skip (opts : Opts) (maxVal : Nat) (init : Store)
    (pre : List (Line × Line)) (k v k2 v2 : Line) (post : List (Line × Line))
    (hno : opts.noover = true) (hpt : opts.plaintext = false)
    (hmax : maxVal < INTPTR_MAX / 4)
    (hbytes : ∀ r ∈ pre ++ (k, v) :: (k2, v2) :: post,
      (∀ b ∈ r.1, b < 256) ∧ (∀ b ∈ r.2, b < 256))
    (hvals : ∀ rec ∈ pre ++ (k, v) :: (k2, v2) :: post, rec.2.length ≤ maxVal)
    (hk : hasKey init opts.subname k = true) :
    (mainRun opts maxVal init (bytes "HEADER=END" ::
      encodeRecs (pre ++ (k, v) :: (k2, v2) :: post) ++ [dataEndLine])).exitOk = true ∧
    (∀ p ∈ putsOf (mainRun opts maxVal init (bytes "HEADER=END" ::
        encodeRecs (pre ++ (k, v) :: (k2, v2) :: post) ++ [dataEndLine])).trace,
      p.2.2 &&& MDBX_NOOVERWRITE ≠ 0 ∧ p.2.2 &&& MDBX_NODUPDATA ≠ 0) ∧
    (∃ t1 t2 f1 f2, (mainRun opts maxVal init (bytes "HEADER=END" ::
        encodeRecs (pre ++ (k, v) :: (k2, v2) :: post) ++ [dataEndLine])).trace =
      t1 ++ EOp.cursorPut k v f1 :: EOp.cursorPut k2 v2 f2 :: t2) ∧
    (∀ n k' vs, storeGet init n k' = some vs →
      storeGet (mainRun opts maxVal init (bytes "HEADER=END" ::
        encodeRecs (pre ++ (k, v) :: (k2, v2) :: post) ++ [dataEndLine])).store n k' =
        some vs) := by
  have hmain := mainRun_single_section opts maxVal init
    (pre ++ (k, v) :: (k2, v2) :: post) hpt hmax hbytes
  obtain ⟨rf, hrf, t1, t2, f1, f2, htr⟩ :=
    refLoad_keyexist_adjacent opts maxVal false opts.subname hno pre k v k2 v2 post
      { eng := { committed := init, cur := init, inTxn := true }
        trace := [.envCreate, .envSetMaxdbs 2, .envOpen, .envGetMaxvalsize, .txnBegin,
          .dbiOpen opts.subname MDBX_CREATE opts.append, .cursorOpen]
        diags := []
        prevk := []
        batch := 0 } hvals hk
  obtain ⟨rf2, hrf2, hget⟩ :=
    refLoad_noover opts maxVal false opts.subname hno (pre ++ (k, v) :: (k2, v2) :: post)
      { eng := { committed := init, cur := init, inTxn := true }
        trace := [.envCreate, .envSetMaxdbs 2, .envOpen, .envGetMaxvalsize, .txnBegin,
          .dbiOpen opts.subname MDBX_CREATE opts.append, .cursorOpen]
        diags := []
        prevk := []
        batch := 0 } hvals
  rw [hrf] at hrf2
  injection hrf2 with hrfeq
  rw [← hrfeq] at hget
  rw [hmain, hrf]
  refine ⟨rfl, ?_, ?_, ?_⟩
  · show ∀ p ∈ putsOf (rf.trace ++ [EOp.txnCommit, EOp.dbiClose, EOp.envClose]),
      p.2.2 &&& MDBX_NOOVERWRITE ≠ 0 ∧ p.2.2 &&& MDBX_NODUPDATA ≠ 0
    intro p hp
    rw [putsOf_append,
      show putsOf [EOp.txnCommit, EOp.dbiClose, EOp.envClose] = [] from rfl,
      List.append_nil] at hp
    obtain ⟨ap, hap, hflag⟩ :=
      refLoad_put_flag_bits opts maxVal false opts.subname _ _ rf hrf rfl p hp
    rw [hflag]
    have hpf : opts.putflags = MDBX_NOOVERWRITE ||| MDBX_NODUPDATA := by
      simp [Opts.putflags, hno]
    rw [hpf]
    rcases hap with rfl | rfl | rfl
    · exact ⟨by decide, by decide⟩
    · exact ⟨by decide, by decide⟩
    · exact ⟨by decide, by decide⟩
  · show ∃ u1 u2 g1 g2,
      rf.trace ++ [EOp.txnCommit, EOp.dbiClose, EOp.envClose] =
        u1 ++ EOp.cursorPut k v g1 :: EOp.cursorPut k2 v2 g2 :: u2
    refine ⟨t1, t2 ++ [EOp.txnCommit, EOp.dbiClose, EOp.envClose], f1, f2, ?_⟩
    rw [htr]
    simp
  · intro n k' vs hsg
    show storeGet rf.eng.cur n k' = some vs
    exact hget n k' vs hsg

/-- Options for the C3 witness: `-N` only. -/
def c3opts : Opts :=
  { append := false, noover := true, rescue := false, plaintext := false,
    subname := none }

/-- Store for the C3 witness: the main table already holds key `[50]`. -/
def c3init : Store := ⟨[(none, [([50], [[53]])])]⟩

/-- The C3 witness dump: records `([50],[51])` (key exists) and
    `([52],[53])`. -/
def c3input : List Line :=
  bytes "HEADER=END" :: encodeRecs [([50], [51]), ([52], [53])] ++ [dataEndLine]

/-- Witness for C3 at a concrete run whose first record's key is already
    present. -/
theorem noover_keyexist_skip_witness :
    (mainRun c3opts 10 c3init c3input).exitOk = true ∧
    (∀ p ∈ putsOf (mainRun c3opts 10 c3init c3input).trace,
      p.2.2 &&& MDBX_NOOVERWRITE ≠ 0 ∧ p.2.2 &&& MDBX_NODUPDATA ≠ 0) ∧
    (∃ t1 t2 f1 f2, (mainRun c3opts 10 c3init c3input).trace =
      t1 ++ EOp.cursorPut [50] [51] f1 :: EOp.cursorPut [52] [53] f2 :: t2) ∧
    (∀ n k' vs, storeGet c3init n k' = some vs →
      storeGet (mainRun c3opts 10 c3init c3input).store n k' = some vs) :=
  noover_keyexist_skip c3opts 10 c3init [] [50] [51] [52] [53] []
    (by decide) (by decide) (by decide) (by decide) (by decide) (by decide)

/-! ## Claim C2: append-mode put flags and comparators -/

/-- Options for the C2 counterexample: append mode (`-a`). -/
def c2opts : Opts :=
  { append := true, noover := false, rescue := false, plaintext := false,
    subname := none }

/-- The C2 counterexample dump: a dupsort table whose single record has
    the empty key. -/
def c2input : List Line :=
  [bytes "duplicates=1", bytes "HEADER=END", 32 :: hexEnc [], 32 :: hexEnc [51],
   dataEndLine]

/-- C2 counterexample: in append mode on a dupsort table, the very first
    record of the section — which has no preceding record — gets
    `MDBX_APPENDDUP` when its key is empty, because the previous-key
    buffer starts out empty and `prevk.iov_len == key.iov_len &&
    memcmp == 0` then holds (mdbx_load.c:3507, 3527-3529).  "the
    append-duplicates flag is set exactly when the record's key is
    byte-identical to the immediately preceding record's key" fails for
    this run: its only put carries `MDBX_APPENDDUP` with no preceding
    record at all. -/
theorem append_dupsort_first_record_counterexample :
    putsOf (mainRun c2opts 100 ⟨[]⟩ c2input).trace =
      [([], [51], MDBX_APPEND ||| MDBX_APPENDDUP)] ∧
    (MDBX_APPEND ||| MDBX_APPENDDUP) &&& MDBX_APPENDDUP ≠ 0 := by
  decide

/-- C2 (amended): in append mode every cursor put carries `MDBX_APPEND`,
    and both comparators handed to `mdbx_dbi_open_ex` always report
    "greater", so records are accepted in input order.  On a dupsort
    table `MDBX_APPENDDUP` is additionally set exactly when the record's
    key equals the *previous-key buffer*, a chain that starts from the
    buffer's initial contents (empty at section start) rather than from a
    first record that has no predecessor — `appChain` makes the first
    comparison against that initial buffer explicit. -/
theorem append_mode_flags (opts : Opts) (maxVal : Nat) (init : Store)
    (recs : List (Line × Line)) (tname : Option Line) (r : RefSt)
    (ha : opts.append = true) (hpt : opts.plaintext = false)
    (hmax : maxVal < INTPTR_MAX / 4)
    (hbytes : ∀ rec ∈ recs, (∀ b ∈ rec.1, b < 256) ∧ (∀ b ∈ rec.2, b < 256))
    (hvals : ∀ rec ∈ recs, rec.2.length ≤ maxVal ∨ opts.rescue = true) :
    (∀ a b, anyway_greater a b = 1) ∧
    (putsOf (mainRun opts maxVal init
        (bytes "HEADER=END" :: encodeRecs recs ++ [dataEndLine])).trace =
      recs.map (fun rec => (rec.1, rec.2, opts.putflags ||| MDBX_APPEND)) ∧
     dbiOpensOf (mainRun opts maxVal init
        (bytes "HEADER=END" :: encodeRecs recs ++ [dataEndLine])).trace =
      [(opts.subname, MDBX_CREATE, true)]) ∧
    (∃ rf, refLoad opts maxVal true tname recs r = .done rf ∧
      putsOf rf.trace = putsOf r.trace ++
        (appChain r.prevk recs).map (fun p => (p.1, p.2.1, opts.putflags ||| p.2.2))) := by
  refine ⟨fun a b => rfl, ?_, ?_⟩
  · have hmain := mainRun_single_section opts maxVal init recs hpt hmax hbytes
    obtain ⟨rf, hrf, hputs⟩ :=
      refLoad_append_flat opts maxVal opts.subname ha recs
        { eng := { committed := init, cur := init, inTxn := true }
          trace := [.envCreate, .envSetMaxdbs 2, .envOpen, .envGetMaxvalsize, .txnBegin,
            .dbiOpen opts.subname MDBX_CREATE opts.append, .cursorOpen]
          diags := []
          prevk := []
          batch := 0 } hvals
    have hdbi :=
      refLoad_dbiOpens opts maxVal false opts.subname recs
        { eng := { committed := init, cur := init, inTxn := true }
          trace := [.envCreate, .envSetMaxdbs 2, .envOpen, .envGetMaxvalsize, .txnBegin,
            .dbiOpen opts.subname MDBX_CREATE opts.append, .cursorOpen]
          diags := []
          prevk := []
          batch := 0 }
    rw [hrf] at hdbi
    rw [hmain, hrf]
    constructor
    · show putsOf (rf.trace ++ [EOp.txnCommit, EOp.dbiClose, EOp.envClose]) =
        recs.map (fun rec => (rec.1, rec.2, opts.putflags ||| MDBX_APPEND))
      rw [putsOf_append,
        show putsOf [EOp.txnCommit, EOp.dbiClose, EOp.envClose] = [] from rfl,
        List.append_nil, hputs]
      simp only [show putsOf [EOp.envCreate, EOp.envSetMaxdbs 2, EOp.envOpen,
        EOp.envGetMaxvalsize, EOp.txnBegin,
        EOp.dbiOpen opts.subname MDBX_CREATE opts.append, EOp.cursorOpen] = [] from rfl,
        List.nil_append]
    · show dbiOpensOf (rf.trace ++ [EOp.txnCommit, EOp.dbiClose, EOp.envClose]) =
        [(opts.subname, MDBX_CREATE, true)]
      rw [dbiOpensOf_append,
        show dbiOpensOf [EOp.txnCommit, EOp.dbiClose, EOp.envClose] = [] from rfl,
        List.append_nil]
      have hdbi2 : dbiOpensOf rf.trace =
          dbiOpensOf [EOp.envCreate, EOp.envSetMaxdbs 2, EOp.envOpen,
            EOp.envGetMaxvalsize, EOp.txnBegin,
            EOp.dbiOpen opts.subname MDBX_CREATE opts.append, EOp.cursorOpen] := hdbi
      rw [hdbi2,
        show dbiOpensOf [EOp.envCreate, EOp.envSetMaxdbs 2, EOp.envOpen,
          EOp.envGetMaxvalsize, EOp.txnBegin,
          EOp.dbiOpen opts.subname MDBX_CREATE opts.append, EOp.cursorOpen] =
          [(opts.subname, MDBX_CREATE, opts.append)] from rfl, ha]
  · exact refLoad_append_dupsort opts maxVal tname ha recs r hvals

/-- Records for the C2 witness: two records sharing one key. -/
def c2recs : List (Line × Line) := [([48], [49]), ([48], [50])]

/-- Witness for C2 at a concrete append-mode run with two records of the
    same key. -/
theorem append_mode_flags_witness :
    (∀ a b, anyway_greater a b = 1) ∧
    (putsOf (mainRun c2opts 10 ⟨[]⟩
        (bytes "HEADER=END" :: encodeRecs c2recs ++ [dataEndLine])).trace =
      c2recs.map (fun rec => (rec.1, rec.2, c2opts.putflags ||| MDBX_APPEND)) ∧
     dbiOpensOf (mainRun c2opts 10 ⟨[]⟩
        (bytes "HEADER=END" :: encodeRecs c2recs ++ [dataEndLine])).trace =
      [(none, MDBX_CREATE, true)]) ∧
    (∃ rf, refLoad c2opts 10 true none c2recs
        ⟨⟨⟨[]⟩, ⟨[]⟩, true⟩, [], [], [], 0⟩ = .done rf ∧
      putsOf rf.trace = putsOf ([] : List EOp) ++
        (appChain [] c2recs).map (fun p => (p.1, p.2.1, c2opts.putflags ||| p.2.2))) :=
  append_mode_flags c2opts 10 ⟨[]⟩ c2recs none ⟨⟨⟨[]⟩, ⟨[]⟩, true⟩, [], [], [], 0⟩
    (by decide) (by decide) (by decide) (by decide) (by decide)

/-! ## Further header-parsing reductions -/

theorem readhdr_headerEnd (rest : List Line) (st : HdrState) :
    readhdr (bytes "HEADER=END" :: rest) st =
      .done { st with dbiFlags := 0 } [] rest := rfl

theorem readhdr_nil (st : HdrState) :
    readhdr [] st = .eof { st with dbiFlags := 0 } [] := rfl

theorem readhdr_database (n : Line) (rest : List Line) (st : HdrState) :
    readhdr ((bytes "database=" ++ n) :: bytes "HEADER=END" :: rest) st =
      .done { st with dbiFlags := 0, subname := some n } [] rest := rfl

theorem loadSections_eof (opts : Opts) (maxVal : Nat) (fuel : Nat) (st : LoadSt)
    (rc : Int) (h : st.eofFlag = true) :
    loadSections opts maxVal fuel st rc = .ret st rc := by
  cases fuel with
  | zero => rfl
  | succ n => simp [loadSections, h]

set_option maxHeartbeats 1600000 in
/-- A run over two data sections — the first named by a `database=` header
    line, the second by nothing — opens the first table under the header's
    name and the second under the anonymous main table (the per-section
    `subname` reset at mdbx_load.c:3577), always with `MDBX_CREATE` and
    with custom comparators exactly in append mode. -/
theorem mainRun_two_sections_dbiOpens (opts : Opts) (maxVal : Nat) (init : Store)
    (n1 : Line) (recs1 recs2 : List (Line × Line))
    (hpt : opts.plaintext = false) (hmax : maxVal < INTPTR_MAX / 4)
    (hb1 : ∀ r ∈ recs1, (∀ b ∈ r.1, b < 256) ∧ (∀ b ∈ r.2, b < 256))
    (hb2 : ∀ r ∈ recs2, (∀ b ∈ r.1, b < 256) ∧ (∀ b ∈ r.2, b < 256))
    (hv1 : ∀ rec ∈ recs1, rec.2.length ≤ maxVal ∨ opts.rescue = true)
    (hv2 : ∀ rec ∈ recs2, rec.2.length ≤ maxVal ∨ opts.rescue = true) :
    dbiOpensOf (mainRun opts maxVal init
      ((bytes "database=" ++ n1) :: bytes "HEADER=END" :: encodeRecs recs1 ++
        dataEndLine :: bytes "HEADER=END" :: encodeRecs recs2 ++ [dataEndLine])).trace =
      [(some n1, MDBX_CREATE, opts.append), (none, MDBX_CREATE, opts.append)] := by
  have hmode0 : (if opts.plaintext = true then NOHDR ||| PRINT else 0) = 0 := by
    rw [hpt]
    rfl
  unfold mainRun
  simp only [List.append_assoc, List.cons_append, hmode0, readhdr_database,
    Nat.zero_and, eq_self_iff_true, if_true, Bool.false_eq_true, if_false, ne_eq,
    not_true, false_and, List.nil_append, not_false_eq_true]
  rw [if_neg (by omega : ¬ maxVal ≥ INTPTR_MAX / 4)]
  have hload1 := loadSections_encoded opts maxVal recs1
      (bytes "HEADER=END" :: (encodeRecs recs2 ++ [dataEndLine]))
      ((encodeRecs recs1 ++ dataEndLine ::
        (bytes "HEADER=END" :: (encodeRecs recs2 ++ [dataEndLine]))).length + 1)
      { input := encodeRecs recs1 ++ dataEndLine ::
          (bytes "HEADER=END" :: (encodeRecs recs2 ++ [dataEndLine]))
        hdr := { dbiFlags := 0, version := 0, subname := some n1, pagesize := 0,
                 maxreaders := 0, mapsize := 0, mode := 0 }
        eng := { committed := init, cur := init, inTxn := false }
        trace := [EOp.envCreate, EOp.envSetMaxdbs 2, EOp.envOpen, EOp.envGetMaxvalsize]
        diags := []
        eofFlag := false } 0 rfl rfl rfl hb1
  rw [show (decide (((0:Nat) &&& MDBX_DUPSORT) ≠ 0)) = false from rfl,
    Nat.zero_or] at hload1
  simp only [List.cons_append, List.nil_append] at hload1
  rw [show ∀ m : Nat, m + 2 = m + 1 + 1 from fun m => rfl]
  rw [hload1]
  obtain ⟨rf1, hrf1, -, -, -, -⟩ :=
    refLoad_complete opts maxVal false (some n1) recs1
      { eng := { committed := init, cur := init, inTxn := true }
        trace := [.envCreate, .envSetMaxdbs 2, .envOpen, .envGetMaxvalsize, .txnBegin,
          .dbiOpen (some n1) MDBX_CREATE opts.append, .cursorOpen]
        diags := []
        prevk := []
        batch := 0 } hv1
  rw [hrf1]
  simp only [readhdr_headerEnd, List.append_nil]
  have hload2 := loadSections_encoded opts maxVal recs2 []
      ((encodeRecs recs1 ++ dataEndLine ::
        bytes "HEADER=END" :: (encodeRecs recs2 ++ [dataEndLine])).length)
      { input := encodeRecs recs2 ++ [dataEndLine]
        hdr := { dbiFlags := 0, version := 0, subname := none, pagesize := 0,
                 maxreaders := 0, mapsize := 0, mode := 0 }
        eng := { committed := rf1.eng.cur, cur := rf1.eng.cur, inTxn := false }
        trace := rf1.trace ++ [EOp.txnCommit, EOp.dbiClose]
        diags := rf1.diags
        eofFlag := false } 0 rfl rfl rfl hb2
  rw [show (decide (((0:Nat) &&& MDBX_DUPSORT) ≠ 0)) = false from rfl,
    Nat.zero_or] at hload2
  simp only [List.cons_append, List.nil_append] at hload2
  rw [hload2]
  obtain ⟨rf2, hrf2, -, -, -, -⟩ :=
    refLoad_complete opts maxVal false none recs2
      { eng := { committed := rf1.eng.cur, cur := rf1.eng.cur, inTxn := true }
        trace := rf1.trace ++ [EOp.txnCommit, EOp.dbiClose] ++
          [EOp.txnBegin, EOp.dbiOpen none MDBX_CREATE opts.append, EOp.cursorOpen]
        diags := rf1.diags
        prevk := []
        batch := 0 } hv2
  rw [hrf2]
  simp only [readhdr_nil, List.append_nil]
  rw [loadSections_eof]
  · show dbiOpensOf ((rf2.trace ++ [EOp.txnCommit, EOp.dbiClose]) ++ [EOp.envClose]) =
      [(some n1, MDBX_CREATE, opts.append), (none, MDBX_CREATE, opts.append)]
    have hd1 : dbiOpensOf rf1.trace = [(some n1, MDBX_CREATE, opts.append)] := by
      have h := refLoad_dbiOpens opts maxVal false (some n1) recs1
        { eng := { committed := init, cur := init, inTxn := true }
          trace := [.envCreate, .envSetMaxdbs 2, .envOpen, .envGetMaxvalsize, .txnBegin,
            .dbiOpen (some n1) MDBX_CREATE opts.append, .cursorOpen]
          diags := []
          prevk := []
          batch := 0 }
      rw [hrf1] at h
      exact h
    have hd2 : dbiOpensOf rf2.trace =
        dbiOpensOf (rf1.trace ++ [EOp.txnCommit, EOp.dbiClose] ++
          [EOp.txnBegin, EOp.dbiOpen none MDBX_CREATE opts.append, EOp.cursorOpen]) := by
      have h := refLoad_dbiOpens opts maxVal false none recs2
        { eng := { committed := rf1.eng.cur, cur := rf1.eng.cur, inTxn := true }
          trace := rf1.trace ++ [EOp.txnCommit, EOp.dbiClose] ++
            [EOp.txnBegin, EOp.dbiOpen none MDBX_CREATE opts.append, EOp.cursorOpen]
          diags := rf1.diags
          prevk := []
          batch := 0 }
      rw [hrf2] at h
      exact h
    rw [dbiOpensOf_append, dbiOpensOf_append, hd2, dbiOpensOf_append,
      dbiOpensOf_append, hd1]
    rfl
  · rfl

/-! ## Claim C5: table open names, create flag, comparators -/

/-- Options for the C5 counterexample: `-s b`. -/
def c5opts : Opts :=
  { append := false, noover := false, rescue := false, plaintext := false,
    subname := some [98] }

/-- The C5 counterexample dump: a first section named `foo` by a
    `database=` header, then a second section with a bare header. -/
def c5input : List Line :=
  [bytes "database=foo", bytes "HEADER=END", dataEndLine,
   bytes "HEADER=END", dataEndLine]

/-- C5 counterexample: with `-s b` and a first-section `database=foo`
    header, the second section — whose header has no `database=` line —
    opens the anonymous main table (`none`), not the `-s` name and not
    the most recent `database=` name: `subname` is freed and reset to
    `NULL` after every section (mdbx_load.c:3577), so "the name given by
    the -s option or the most recent database= header line" is wrong for
    every section after the first. -/
theorem dbi_open_by_name_counterexample :
    c5opts.subname = some [98] ∧
    dbiOpensOf (mainRun c5opts 10 ⟨[]⟩ c5input).trace =
      [(some (bytes "foo"), MDBX_CREATE, false), (none, MDBX_CREATE, false)] ∧
    (none : Option Line) ≠ some [98] ∧
    (none : Option Line) ≠ some (bytes "foo") := by
  decide

/-- C5 (amended): every table open of a run carries `MDBX_CREATE` and the
    `anyway_greater` comparators exactly in append mode.  The name is the
    section's own header's `database=` value when present; a section whose
    header has none opens the `-s` name only if it is the first section —
    `subname` is reset to `NULL` after each section, so later bare
    sections open the anonymous main table. -/
theorem dbi_open_by_name (opts : Opts) (maxVal : Nat) (init : Store) (n1 : Line)
    (recs1 recs2 : List (Line × Line))
    (hpt : opts.plaintext = false) (hmax : maxVal < INTPTR_MAX / 4)
    (hb1 : ∀ r ∈ recs1, (∀ b ∈ r.1, b < 256) ∧ (∀ b ∈ r.2, b < 256))
    (hb2 : ∀ r ∈ recs2, (∀ b ∈ r.1, b < 256) ∧ (∀ b ∈ r.2, b < 256))
    (hv1 : ∀ rec ∈ recs1, rec.2.length ≤ maxVal ∨ opts.rescue = true)
    (hv2 : ∀ rec ∈ recs2, rec.2.length ≤ maxVal ∨ opts.rescue = true) :
    dbiOpensOf (mainRun opts maxVal init
      ((bytes "database=" ++ n1) :: bytes "HEADER=END" :: encodeRecs recs1 ++
        dataEndLine :: bytes "HEADER=END" :: encodeRecs recs2 ++ [dataEndLine])).trace =
      [(some n1, MDBX_CREATE, opts.append), (none, MDBX_CREATE, opts.append)] ∧
    dbiOpensOf (mainRun opts maxVal init
      (bytes "HEADER=END" :: encodeRecs recs2 ++ [dataEndLine])).trace =
      [(opts.subname, MDBX_CREATE, opts.append)] := by
  constructor
  · exact mainRun_two_sections_dbiOpens opts maxVal init n1 recs1 recs2
      hpt hmax hb1 hb2 hv1 hv2
  · have hmain := mainRun_single_section opts maxVal init recs2 hpt hmax hb2
    obtain ⟨rf, hrf, -, -, -, -⟩ :=
      refLoad_complete opts maxVal false opts.subname recs2
        { eng := { committed := init, cur := init, inTxn := true }
          trace := [.envCreate, .envSetMaxdbs 2, .envOpen, .envGetMaxvalsize, .txnBegin,
            .dbiOpen opts.subname MDBX_CREATE opts.append, .cursorOpen]
          diags := []
          prevk := []
          batch := 0 } hv2
    have hdbi := refLoad_dbiOpens opts maxVal false opts.subname recs2
        { eng := { committed := init, cur := init, inTxn := true }
          trace := [.envCreate, .envSetMaxdbs 2, .envOpen, .envGetMaxvalsize, .txnBegin,
            .dbiOpen opts.subname MDBX_CREATE opts.append, .cursorOpen]
          diags := []
          prevk := []
          batch := 0 }
    rw [hrf] at hdbi
    rw [hmain, hrf]
    show dbiOpensOf (rf.trace ++ [EOp.txnCommit, EOp.dbiClose, EOp.envClose]) =
      [(opts.subname, MDBX_CREATE, opts.append)]
    rw [dbiOpensOf_append,
      show dbiOpensOf [EOp.txnCommit, EOp.dbiClose, EOp.envClose] = [] from rfl,
      List.append_nil]
    exact hdbi

/-- Witness for C5 at a concrete two-section and one-section run. -/
theorem dbi_open_by_name_witness :
    dbiOpensOf (mainRun c5opts 10 ⟨[]⟩
      ((bytes "database=" ++ [102]) :: bytes "HEADER=END" ::
        encodeRecs [([48], [49])] ++ dataEndLine :: bytes "HEADER=END" ::
        encodeRecs [([50], [51])] ++ [dataEndLine])).trace =
      [(some [102], MDBX_CREATE, false), (none, MDBX_CREATE, false)] ∧
    dbiOpensOf (mainRun c5opts 10 ⟨[]⟩
      (bytes "HEADER=END" :: encodeRecs [([50], [51])] ++ [dataEndLine])).trace =
      [(some [98], MDBX_CREATE, false)] :=
  dbi_open_by_name c5opts 10 ⟨[]⟩ [102] [([48], [49])] [([50], [51])]
    (by decide) (by decide) (by decide) (by decide) (by decide) (by decide)

/-! ## Claim C6: `mapsize=` header and the environment geometry -/

/-- Options for the C6 counterexample: no flags. -/
def c6opts : Opts :=
  { append := false, noover := false, rescue := false, plaintext := false,
    subname := none }

/-- The C6 counterexample dump: a `mapsize=0` header line. -/
def c6input : List Line := [bytes "mapsize=0", bytes "HEADER=END", dataEndLine]

/-- C6 counterexample: `mapsize=0` parses as the unsigned 64-bit number 0,
    but the load never calls `mdbx_env_set_geometry` — the call is guarded
    by `envinfo.mi_mapsize != 0` (mdbx_load.c:3450) — and opens the
    environment anyway.  "sets the environment's map-size geometry upper
    bound to N before opening" is therefore wrong for N = 0. -/
theorem mapsize_sets_geometry_counterexample :
    scanU64 (bytes "0") = some 0 ∧
    ((mainRun c6opts 10 ⟨[]⟩ c6input).trace.all
      (fun op => match op with | EOp.envSetGeometry _ => false | _ => true)) = true ∧
    EOp.envOpen ∈ (mainRun c6opts 10 ⟨[]⟩ c6input).trace := by
  decide

theorem hdrLineStep_mapsize (st : HdrState) (s : Line) (N : Nat)
    (h : scanU64 s = some N) :
    hdrLineStep st (bytes "mapsize=" ++ s) = .cont { st with mapsize := N } [] := by
  show (match scanU64 s with
    | some n => HLine.cont { st with mapsize := n } []
    | none => HLine.exited [.invalidMapsize]) = .cont { st with mapsize := N } []
  rw [h]

theorem readhdr_mapsize (s : Line) (N : Nat) (rest : List Line) (st : HdrState)
    (h : scanU64 s = some N) :
    readhdr ((bytes "mapsize=" ++ s) :: bytes "HEADER=END" :: rest) st =
      .done { st with dbiFlags := 0, mapsize := N } [] rest := by
  simp only [readhdr, readhdrGo]
  rw [hdrLineStep_mapsize _ _ _ h]
  simp only [readhdrGo, List.nil_append]
  rfl

set_option maxHeartbeats 800000 in
/-- C6 (amended): a header line `mapsize=N` (N parseable as unsigned
    64-bit) stores N; the geometry call is made before `mdbx_env_open`
    only when N is nonzero — `mapsize=0` parses but sets no geometry.
    When N exceeds `INTPTR_MAX` the tool prints the too-large diagnostic
    and never opens the environment, but `rc` is still 0 from
    `mdbx_env_create`, so the process exits with `EXIT_SUCCESS`. -/
theorem mapsize_sets_geometry (opts : Opts) (maxVal : Nat) (init : Store)
    (s : Line) (N : Nat) (recs : List (Line × Line))
    (hpt : opts.plaintext = false) (hmax : maxVal < INTPTR_MAX / 4)
    (hscan : scanU64 s = some N)
    (hbytes : ∀ r ∈ recs, (∀ b ∈ r.1, b < 256) ∧ (∀ b ∈ r.2, b < 256))
    (hvals : ∀ rec ∈ recs, rec.2.length ≤ maxVal ∨ opts.rescue = true) :
    (0 < N → N ≤ INTPTR_MAX →
      ∃ t, (mainRun opts maxVal init ((bytes "mapsize=" ++ s) ::
          bytes "HEADER=END" :: encodeRecs recs ++ [dataEndLine])).trace =
        [EOp.envCreate, EOp.envSetMaxdbs 2, EOp.envSetGeometry N, EOp.envOpen,
         EOp.envGetMaxvalsize] ++ t) ∧
    (N > INTPTR_MAX →
      mainRun opts maxVal init ((bytes "mapsize=" ++ s) ::
          bytes "HEADER=END" :: encodeRecs recs ++ [dataEndLine]) =
        { trace := [EOp.envCreate, EOp.envSetMaxdbs 2, EOp.envClose]
          diags := [Diag.mapsizeTooLarge]
          exitOk := true
          store := init }) := by
  have hmode0 : (if opts.plaintext = true then NOHDR ||| PRINT else 0) = 0 := by
    rw [hpt]
    rfl
  constructor
  · intro hNpos hNle
    unfold mainRun
    simp only [List.append_assoc, List.cons_append, hmode0, Nat.zero_and,
      eq_self_iff_true, if_true, Bool.false_eq_true, if_false, List.nil_append]
    rw [readhdr_mapsize _ _ _ _ hscan]
    simp only [Bool.false_eq_true, if_false, List.nil_append]
    rw [if_neg (by omega : ¬ (N ≠ 0 ∧ N > INTPTR_MAX)),
      if_pos (by omega : N ≠ 0),
      if_neg (by omega : ¬ maxVal ≥ INTPTR_MAX / 4)]
    simp only [List.cons_append, List.nil_append]
    have hload := loadSections_encoded opts maxVal recs []
        ((encodeRecs recs ++ [dataEndLine]).length + 1)
        { input := encodeRecs recs ++ [dataEndLine]
          hdr := { dbiFlags := 0, version := 0, subname := opts.subname, pagesize := 0,
                   maxreaders := 0, mapsize := N, mode := 0 }
          eng := { committed := init, cur := init, inTxn := false }
          trace := [EOp.envCreate, EOp.envSetMaxdbs 2, EOp.envSetGeometry N,
            EOp.envOpen, EOp.envGetMaxvalsize]
          diags := []
          eofFlag := false } 0 rfl rfl rfl hbytes
    rw [show (decide (((0:Nat) &&& MDBX_DUPSORT) ≠ 0)) = false from rfl,
      Nat.zero_or] at hload
    simp only [List.cons_append, List.nil_append] at hload
    rw [show ∀ m : Nat, m + 2 = m + 1 + 1 from fun m => rfl, hload]
    obtain ⟨rf, hrf, -, -, -, ⟨t0, ht0⟩⟩ :=
      refLoad_complete opts maxVal false opts.subname recs
        { eng := { committed := init, cur := init, inTxn := true }
          trace := [EOp.envCreate, EOp.envSetMaxdbs 2, EOp.envSetGeometry N,
            EOp.envOpen, EOp.envGetMaxvalsize, EOp.txnBegin,
            EOp.dbiOpen opts.subname MDBX_CREATE opts.append, EOp.cursorOpen]
          diags := []
          prevk := []
          batch := 0 } hvals
    rw [hrf]
    refine ⟨[EOp.txnBegin, EOp.dbiOpen opts.subname MDBX_CREATE opts.append,
      EOp.cursorOpen] ++ (t0 ++ [EOp.txnCommit, EOp.dbiClose, EOp.envClose]), ?_⟩
    show (rf.trace ++ [EOp.txnCommit, EOp.dbiClose]) ++ [EOp.envClose] =
      EOp.envCreate :: EOp.envSetMaxdbs 2 :: EOp.envSetGeometry N :: EOp.envOpen ::
        EOp.envGetMaxvalsize ::
        ([EOp.txnBegin, EOp.dbiOpen opts.subname MDBX_CREATE opts.append,
          EOp.cursorOpen] ++ (t0 ++ [EOp.txnCommit, EOp.dbiClose, EOp.envClose]))
    rw [ht0]
    simp only [List.cons_append, List.append_assoc, List.nil_append]
  · intro hNbig
    unfold mainRun
    simp only [List.append_assoc, List.cons_append, hmode0, Nat.zero_and,
      eq_self_iff_true, if_true, Bool.false_eq_true, if_false, List.nil_append]
    rw [readhdr_mapsize _ _ _ _ hscan]
    simp only [Bool.false_eq_true, if_false, List.nil_append]
    rw [if_pos (⟨by omega, hNbig⟩ : N ≠ 0 ∧ N > INTPTR_MAX)]

/-- Witness for C6 with `mapsize=1` and an empty data section. -/
theorem mapsize_sets_geometry_witness :
    (0 < 1 → 1 ≤ INTPTR_MAX →
      ∃ t, (mainRun c6opts 10 ⟨[]⟩ ((bytes "mapsize=" ++ [49]) ::
          bytes "HEADER=END" :: encodeRecs [] ++ [dataEndLine])).trace =
        [EOp.envCreate, EOp.envSetMaxdbs 2, EOp.envSetGeometry 1, EOp.envOpen,
         EOp.envGetMaxvalsize] ++ t) ∧
    (1 > INTPTR_MAX →
      mainRun c6opts 10 ⟨[]⟩ ((bytes "mapsize=" ++ [49]) ::
          bytes "HEADER=END" :: encodeRecs [] ++ [dataEndLine]) =
        { trace := [EOp.envCreate, EOp.envSetMaxdbs 2, EOp.envClose]
          diags := [Diag.mapsizeTooLarge]
          exitOk := true
          store := ⟨[]⟩ }) :=
  mapsize_sets_geometry c6opts 10 ⟨[]⟩ [49] 1 []
    (by decide) (by decide) (by decide) (by decide) (by decide)

/-! ## Claim C4: the tool's engine-call repertoire -/

/-- Every engine call the tool can issue: everything except a get or a
    delete. -/
def allowedOp : EOp → Bool
  | .cursorGet => false
  | .cursorDel => false
  | _ => true

/-- The operation list exactly as the claim words it: environment
    create/set-geometry/open/close, transaction begin/commit/abort, table
    open/close, cursor open/put — without `mdbx_env_set_maxdbs` and
    `mdbx_env_get_maxvalsize_ex`. -/
def statedOpC4 : EOp → Bool
  | .envCreate => true
  | .envSetGeometry _ => true
  | .envOpen => true
  | .envClose => true
  | .txnBegin => true
  | .txnCommit => true
  | .txnAbort => true
  | .dbiOpen _ _ _ => true
  | .dbiClose => true
  | .cursorOpen => true
  | .cursorPut _ _ _ => true
  | _ => false

/-- Options for the C4 counterexample: no flags. -/
def c4opts : Opts :=
  { append := false, noover := false, rescue := false, plaintext := false,
    subname := none }

/-- C4 counterexample: even the run on empty input calls
    `mdbx_env_set_maxdbs` (mdbx_load.c:3436) and
    `mdbx_env_get_maxvalsize_ex` (mdbx_load.c:3462), neither of which is in
    the claim's list of engine interactions. -/
theorem load_engine_ops_counterexample :
    ((mainRun c4opts 10 ⟨[]⟩ []).trace.all statedOpC4) = false ∧
    EOp.envSetMaxdbs 2 ∈ (mainRun c4opts 10 ⟨[]⟩ []).trace ∧
    EOp.envGetMaxvalsize ∈ (mainRun c4opts 10 ⟨[]⟩ []).trace := by
  decide

/-- The record loop only adds allowed engine calls, and never drops a key
    present at loop entry from the current or committed store. -/
theorem loadRecords_inv (opts : Opts) (maxVal : Nat) (dupsort : Bool)
    (tname : Option Line) (init : Store) :
    ∀ (fuel : Nat) (st : LoadSt) (prevk : Line) (batch : Nat),
      st.trace.all allowedOp = true →
      (∀ n k, hasKey init n k = true → hasKey st.eng.cur n k = true) →
      (∀ n k, hasKey init n k = true → hasKey st.eng.committed n k = true) →
      ((loadRecords opts maxVal dupsort tname fuel st prevk batch).st.trace.all
        allowedOp = true) ∧
      (∀ n k, hasKey init n k = true →
        hasKey (loadRecords opts maxVal dupsort tname fuel st prevk batch).st.eng.cur
          n k = true) ∧
      (∀ n k, hasKey init n k = true →
        hasKey
          (loadRecords opts maxVal dupsort tname fuel st prevk batch).st.eng.committed
          n k = true) := by
  intro fuel
  induction fuel with
  | zero =>
      intro st prevk batch h1 h2 h3
      exact ⟨h1, h2, h3⟩
  | succ fuel ih =>
      intro st prevk batch h1 h2 h3
      simp only [loadRecords]
      cases hrl : readline st.hdr.mode st.input with
      | mk r in1 =>
        cases r with
        | dataEnd => exact ⟨h1, h2, h3⟩
        | realEof => exact ⟨h1, h2, h3⟩
        | bad => exact ⟨h1, h2, h3⟩
        | ok key =>
          dsimp only
          cases hrl2 : readline st.hdr.mode in1 with
          | mk r2 in2 =>
            cases r2 with
            | dataEnd => exact ⟨h1, h2, h3⟩
            | realEof => exact ⟨h1, h2, h3⟩
            | bad => exact ⟨h1, h2, h3⟩
            | ok data =>
              dsimp only
              cases hstep : recStep opts maxVal dupsort tname st.eng prevk batch
                  key data with
              | next eng2 ops ds prevk2 batch2 =>
                  obtain ⟨flags, -, hops, -, -, -, -, hkeys, hcomm⟩ :=
                    recStep_next_inv opts maxVal dupsort tname st.eng prevk batch
                      key data eng2 ops ds prevk2 batch2 hstep
                  refine ih { st with
                      input := in2
                      eng := eng2
                      trace := st.trace ++ ops
                      diags := st.diags ++ ds } prevk2 batch2 ?_ ?_ ?_
                  · show (st.trace ++ ops).all allowedOp = true
                    have hops2 : ops.all allowedOp = true := by
                      rcases hops with rfl | rfl <;> rfl
                    simp [List.all_append, h1, hops2]
                  · intro n k hk
                    exact hkeys n k (h2 n k hk)
                  · intro n k hk
                    rcases hcomm with he | he
                    · rw [he]
                      exact h3 n k hk
                    · rw [he]
                      exact hkeys n k (h2 n k hk)
              | fail eng2 ops ds rc =>
                  obtain ⟨-, -, -, -, ⟨flags, hopseq⟩, heng⟩ :=
                    recStep_fail_inv opts maxVal dupsort tname st.eng prevk batch
                      key data eng2 ops ds rc hstep
                  refine ⟨?_, ?_, ?_⟩
                  · show (st.trace ++ ops).all allowedOp = true
                    have hops2 : ops.all allowedOp = true := by
                      rw [hopseq]
                      rfl
                    simp [List.all_append, h1, hops2]
                  · intro n k hk
                    show hasKey eng2.cur n k = true
                    rw [heng]
                    exact h2 n k hk
                  · intro n k hk
                    show hasKey eng2.committed n k = true
                    rw [heng]
                    exact h3 n k hk

/-- The section loop only adds allowed engine calls, and never drops a key
    present at loop entry from the current or committed store. -/
theorem loadSections_inv (opts : Opts) (maxVal : Nat) (init : Store) :
    ∀ (fuel : Nat) (st : LoadSt) (rc : Int),
      st.trace.all allowedOp = true →
      (∀ n k, hasKey init n k = true → hasKey st.eng.cur n k = true) →
      (∀ n k, hasKey init n k = true → hasKey st.eng.committed n k = true) →
      ((loadSections opts maxVal fuel st rc).st.trace.all allowedOp = true) ∧
      (∀ n k, hasKey init n k = true →
        hasKey (loadSections opts maxVal fuel st rc).st.eng.cur n k = true) ∧
      (∀ n k, hasKey init n k = true →
        hasKey (loadSections opts maxVal fuel st rc).st.eng.committed n k = true) := by
  intro fuel
  induction fuel with
  | zero =>
      intro st rc h1 h2 h3
      exact ⟨h1, h2, h3⟩
  | succ fuel ih =>
      intro st rc h1 h2 h3
      simp only [loadSections]
      by_cases heof : st.eofFlag = true
      · rw [if_pos heof]
        exact ⟨h1, h2, h3⟩
      · rw [if_neg heof]
        have h1' : (st.trace ++ [EOp.txnBegin,
            EOp.dbiOpen st.hdr.subname (st.hdr.dbiFlags ||| MDBX_CREATE) opts.append,
            EOp.cursorOpen]).all allowedOp = true := by
          simp [List.all_append, h1, allowedOp]
        obtain ⟨g1, g2, g3⟩ :=
          loadRecords_inv opts maxVal (decide (st.hdr.dbiFlags &&& MDBX_DUPSORT ≠ 0))
            st.hdr.subname init
            ((st.input.length) + 1)
            { st with
              eng := { committed := st.eng.committed, cur := st.eng.committed,
                       inTxn := true }
              trace := st.trace ++ [.txnBegin,
                .dbiOpen st.hdr.subname (st.hdr.dbiFlags ||| MDBX_CREATE) opts.append,
                .cursorOpen] } [] 0 h1' (fun n k hk => h3 n k hk)
            (fun n k hk => h3 n k hk)
        cases hlr : loadRecords opts maxVal
            (decide (st.hdr.dbiFlags &&& MDBX_DUPSORT ≠ 0)) st.hdr.subname
            ((st.input.length) + 1)
            { st with
              eng := { committed := st.eng.committed, cur := st.eng.committed,
                       inTxn := true }
              trace := st.trace ++ [.txnBegin,
                .dbiOpen st.hdr.subname (st.hdr.dbiFlags ||| MDBX_CREATE) opts.append,
                .cursorOpen] } [] 0 with
        | fuelOut st2 =>
            rw [hlr] at g1 g2 g3
            exact ⟨g1, g2, g3⟩
        | abort st2 rc2 =>
            rw [hlr] at g1 g2 g3
            have g1' : st2.trace.all allowedOp = true := g1
            refine ⟨?_, ?_, ?_⟩
            · show (st2.trace ++ [EOp.txnAbort]).all allowedOp = true
              rw [List.all_append, g1']
              rfl
            · intro n k hk
              show hasKey st2.eng.committed n k = true
              exact g3 n k hk
            · intro n k hk
              show hasKey st2.eng.committed n k = true
              exact g3 n k hk
        | eofBreak st2 =>
            rw [hlr] at g1 g2 g3
            have g1' : st2.trace.all allowedOp = true := g1
            have p1 : (st2.trace ++ [EOp.txnCommit, EOp.dbiClose]).all allowedOp
                = true := by
              rw [List.all_append, g1']
              rfl
            dsimp only
            by_cases hmode : st2.hdr.mode &&& NOHDR ≠ 0
            · rw [if_pos hmode]
              exact ih _ 0 p1 (fun n k hk => g2 n k hk) (fun n k hk => g2 n k hk)
            · rw [if_neg hmode]
              cases hrh : readhdr st2.input { st2.hdr with subname := none } with
              | exited ds =>
                  exact ⟨p1, fun n k hk => g2 n k hk, fun n k hk => g2 n k hk⟩
              | done h2' ds rest =>
                  exact ih _ 0 p1 (fun n k hk => g2 n k hk) (fun n k hk => g2 n k hk)
              | eof h2' ds =>
                  exact ih _ 0 p1 (fun n k hk => g2 n k hk) (fun n k hk => g2 n k hk)

/-- The final cleanup shared by both exits of the section loop
    (mdbx_load.c:3571-3590): `mdbx_env_close` on the `ret` path, no
    cleanup after an `exit` inside `readhdr`. -/
def runResOf (out : RunOut) : RunRes :=
  match out with
  | .ret st rc =>
      { trace := st.trace ++ [.envClose]
        diags := st.diags
        exitOk := rc == 0
        store := st.eng.committed }
  | .exited st =>
      { trace := st.trace
        diags := st.diags
        exitOk := false
        store := st.eng.committed }

/-- C4 (amended): every engine call of every run is from the repertoire
    environment create / set-maxdbs / set-geometry / open /
    get-maxvalsize / close, transaction begin/commit/abort, table
    open/close, cursor open/put — never a get or a delete — and no key
    present in the environment before the load is ever removed from the
    final committed contents.  (The claim's own operation list omits the
    `mdbx_env_set_maxdbs` and `mdbx_env_get_maxvalsize_ex` calls.) -/
theorem load_engine_ops (opts : Opts) (maxVal : Nat) (init : Store)
    (input : List Line) :
    ((mainRun opts maxVal init input).trace.all allowedOp = true) ∧
    (∀ n k, hasKey init n k = true →
      hasKey (mainRun opts maxVal init input).store n k = true) := by
  have hfin : ∀ (input1 : List Line) (hdr1 : HdrState) (ds1 : List Diag)
      (tr2 : List EOp) (eof1 : Bool),
      tr2.all allowedOp = true →
      ((runResOf (loadSections opts maxVal (input1.length + 2)
          ⟨input1, hdr1, ⟨init, init, false⟩, tr2, ds1, eof1⟩ 0)).trace.all
        allowedOp = true) ∧
      (∀ n k, hasKey init n k = true →
        hasKey (runResOf (loadSections opts maxVal (input1.length + 2)
          ⟨input1, hdr1, ⟨init, init, false⟩, tr2, ds1, eof1⟩ 0)).store n k =
          true) := by
    intro input1 hdr1 ds1 tr2 eof1 htr
    obtain ⟨g1, g2, g3⟩ :=
      loadSections_inv opts maxVal init (input1.length + 2)
        ⟨input1, hdr1, ⟨init, init, false⟩, tr2, ds1, eof1⟩ 0 htr
        (fun n k hk => hk) (fun n k hk => hk)
    cases hls : loadSections opts maxVal (input1.length + 2)
        ⟨input1, hdr1, ⟨init, init, false⟩, tr2, ds1, eof1⟩ 0 with
    | ret st rc =>
        rw [hls] at g1 g2 g3
        have g1' : st.trace.all allowedOp = true := g1
        refine ⟨?_, ?_⟩
        · show (st.trace ++ [EOp.envClose]).all allowedOp = true
          rw [List.all_append, g1']
          rfl
        · intro n k hk
          show hasKey st.eng.committed n k = true
          exact g3 n k hk
    | exited st =>
        rw [hls] at g1 g2 g3
        exact ⟨g1, fun n k hk => g3 n k hk⟩
  unfold mainRun
  by_cases hpt : opts.plaintext = true
  · simp only [hpt, if_true]
    rw [if_neg (by decide : ¬ ((NOHDR ||| PRINT) &&& NOHDR = 0))]
    dsimp only
    simp only [Bool.false_eq_true, if_false, ne_eq, not_true, false_and,
      eq_self_iff_true, if_true, List.nil_append, not_false_eq_true]
    by_cases hmv : maxVal ≥ INTPTR_MAX / 4
    · rw [if_pos hmv]
      exact ⟨by rfl, fun n k hk => hk⟩
    · rw [if_neg hmv]
      exact hfin input
        { dbiFlags := 0, version := 0, subname := opts.subname, pagesize := 0,
          maxreaders := 0, mapsize := 0, mode := NOHDR ||| PRINT } []
        [.envCreate, .envSetMaxdbs 2, .envOpen, .envGetMaxvalsize] false rfl
  · simp only [hpt, if_false, Bool.false_eq_true]
    rw [if_pos (by decide : (0 &&& NOHDR = 0))]
    cases hr : readhdr input
        { dbiFlags := 0, version := 0, subname := opts.subname, pagesize := 0,
          maxreaders := 0, mapsize := 0, mode := 0 } with
    | exited ds =>
        dsimp only
        simp only [eq_self_iff_true, if_true]
        exact ⟨rfl, fun n k hk => hk⟩
    | done h1 ds rest =>
        dsimp only
        simp only [Bool.false_eq_true, if_false]
        by_cases hbig : h1.mapsize ≠ 0 ∧ h1.mapsize > INTPTR_MAX
        · rw [if_pos hbig]
          exact ⟨by rfl, fun n k hk => hk⟩
        · rw [if_neg hbig]
          by_cases hms : h1.mapsize ≠ 0
          · rw [if_pos hms]
            by_cases hmv : maxVal ≥ INTPTR_MAX / 4
            · rw [if_pos hmv]
              exact ⟨by rfl, fun n k hk => hk⟩
            · rw [if_neg hmv]
              exact hfin rest h1 ds
                ([EOp.envCreate, EOp.envSetMaxdbs 2] ++
                  [EOp.envSetGeometry h1.mapsize] ++
                  [EOp.envOpen, EOp.envGetMaxvalsize]) false (by rfl)
          · rw [if_neg hms]
            by_cases hmv : maxVal ≥ INTPTR_MAX / 4
            · rw [if_pos hmv]
              exact ⟨by rfl, fun n k hk => hk⟩
            · rw [if_neg hmv]
              exact hfin rest h1 ds
                [.envCreate, .envSetMaxdbs 2, .envOpen, .envGetMaxvalsize] false rfl
    | eof h1 ds =>
        dsimp only
        simp only [Bool.false_eq_true, if_false]
        by_cases hbig : h1.mapsize ≠ 0 ∧ h1.mapsize > INTPTR_MAX
        · rw [if_pos hbig]
          exact ⟨by rfl, fun n k hk => hk⟩
        · rw [if_neg hbig]
          by_cases hms : h1.mapsize ≠ 0
          · rw [if_pos hms]
            by_cases hmv : maxVal ≥ INTPTR_MAX / 4
            · rw [if_pos hmv]
              exact ⟨by rfl, fun n k hk => hk⟩
            · rw [if_neg hmv]
              exact hfin [] h1 ds
                ([EOp.envCreate, EOp.envSetMaxdbs 2] ++
                  [EOp.envSetGeometry h1.mapsize] ++
                  [EOp.envOpen, EOp.envGetMaxvalsize]) true (by rfl)
          · rw [if_neg hms]
            by_cases hmv : maxVal ≥ INTPTR_MAX / 4
            · rw [if_pos hmv]
              exact ⟨by rfl, fun n k hk => hk⟩
            · rw [if_neg hmv]
              exact hfin [] h1 ds
                [.envCreate, .envSetMaxdbs 2, .envOpen, .envGetMaxvalsize] true rfl

/-- Witness for C4 at a concrete run over a store already holding a key. -/
theorem load_engine_ops_witness :
    ((mainRun c4opts 10 ⟨[(none, [([55], [[56]])])]⟩
        (bytes "HEADER=END" :: encodeRecs [([48], [49])] ++ [dataEndLine])).trace.all
      allowedOp = true) ∧
    (∀ n k, hasKey ⟨[(none, [([55], [[56]])])]⟩ n k = true →
      hasKey (mainRun c4opts 10 ⟨[(none, [([55], [[56]])])]⟩
          (bytes "HEADER=END" :: encodeRecs [([48], [49])] ++ [dataEndLine])).store
        n k = true) :=
  load_engine_ops c4opts 10 ⟨[(none, [([55], [[56]])])]⟩
    (bytes "HEADER=END" :: encodeRecs [([48], [49])] ++ [dataEndLine])

/-! ## Claim C7: snapshot isolation of reader snapshots

The MVCC engine core is not part of this repository checkout; this section
is modelled from the spec alone (committed write transactions apply in
commit order; a reader snapshot pinned at `s` observes exactly the
transactions committed no later than `s`). -/

/-- Modelled from the spec: apply one committed transaction's key/value
    writes to a flat map, last write winning. -/
def applyWrites (m : List (Line × Line)) : List (Line × Line) → List (Line × Line)
  | [] => m
  | (k, v) :: ws => applyWrites (aupdate m k v) ws

/-- Modelled from the spec: the database state a reader snapshot pinned at
    `s` observes over the committed history `h` (transactions in commit
    order, tagged with their commit ids) — exactly the transactions whose
    commit id is at most `s`. -/
def stateAt (h : List (Nat × List (Line × Line))) (s : Nat) : List (Line × Line) :=
  (h.filter (fun t => t.1 ≤ s)).foldl (fun m t => applyWrites m t.2) []

/-- Modelled from the spec: a get through a reader snapshot. -/
def readAt (h : List (Nat × List (Line × Line))) (s : Nat) (k : Line) :
    Option Line :=
  alookup (stateAt h s) k

/-- C7: for committed write transactions T1 (older, commit id `t1`) and T2
    (newer, commit id `t2`) touching the same key `k`, a reader snapshot
    pinned before T2 commits (`s < t2`) reads `k` exactly as if T2 had
    never committed: it never observes T2's value. -/
theorem snapshot_never_sees_newer (h : List (Nat × List (Line × Line)))
    (t1 t2 : Nat) (w1 w2 : List (Line × Line)) (k : Line) (s : Nat)
    (hmem : (t1, w1) ∈ h) (ht : t1 < t2)
    (hk1 : k ∈ w1.map Prod.fst) (hk2 : k ∈ w2.map Prod.fst)
    (hs : s < t2) :
    readAt (h ++ [(t2, w2)]) s k = readAt h s k := by
  unfold readAt stateAt
  rw [List.filter_append]
  have hfe : List.filter (fun t => decide (t.1 ≤ s)) [(t2, w2)] = [] := by
    simp only [List.filter_cons, List.filter_nil]
    rw [if_neg]
    intro hc
    rw [decide_eq_true_eq] at hc
    exact absurd hc (by omega)
  rw [hfe, List.append_nil]

/-- Witness for C7: a two-transaction history over the key `[107]` and a
    snapshot pinned between the two commits. -/
theorem snapshot_never_sees_newer_witness :
    readAt ([(1, [([107], [118])])] ++ [(3, [([107], [119])])]) 2 [107] =
      readAt [(1, [([107], [118])])] 2 [107] :=
  snapshot_never_sees_newer [(1, [([107], [118])])] 1 3
    [([107], [118])] [([107], [119])] [107] 2
    (by decide) (by decide) (by decide) (by decide) (by decide)
